import Mathlib

/-!
Verification development for the bankxtract statement parsing and
reconciliation engine (backend/app of the repository).

The Python sources are shallowly embedded: Python floats are modelled as
rationals, Python dict results as Lean structures with `Option` fields for
keys that may be absent, fallible operations as `Except`/`Option`, and the
regular expressions of the extraction cascade as a small backtracking
matcher over character lists that mirrors the leftmost-search and
backtracking-preference semantics of Python `re`.
-/

set_option maxRecDepth 10000

/-! ### Character classes (ASCII approximations of Python `re` classes) -/

/-- Whitespace characters recognised by Python's regex class for spaces. -/
def isSpaceCh (c : Char) : Bool :=
  c == ' ' || c == '\t' || c == '\n' || c == '\r' || c == '\x0b' || c == '\x0c'

/-- Word characters of Python regex word boundaries. -/
def isWordCh (c : Char) : Bool :=
  c.isAlphanum || c == '_'

/-- Currency symbols stripped and matched by the extraction patterns. -/
def isCurCh (c : Char) : Bool :=
  c == '$' || c == '£' || c == '€'

/-- Character class of the free-form description captures. -/
def isDescCh (c : Char) : Bool :=
  c.isAlpha || c.isDigit || isSpaceCh c || c == '.' || c == ',' || c == '&' || c == '-'

/-- Digits or thousands separators, the class of the amount captures. -/
def isDigitComma (c : Char) : Bool :=
  c.isDigit || c == ','

/-- Slash or dash, the date separators accepted by the date-shaped patterns. -/
def isDashSlash (c : Char) : Bool :=
  c == '/' || c == '-'

/-- Colon or whitespace, the separator class of the balance label patterns. -/
def isColonSpace (c : Char) : Bool :=
  c == ':' || isSpaceCh c

/-! ### List-of-characters string primitives -/

/-- Boolean test that the first list is an initial segment of the second. -/
def hasPrefixC : List Char → List Char → Bool
  | [], _ => true
  | _ :: _, [] => false
  | a :: n, b :: h => a == b && hasPrefixC n h

/-- Boolean test that the first list occurs contiguously inside the second. -/
def hasInfixC (n : List Char) : List Char → Bool
  | [] => hasPrefixC n []
  | c :: t => hasPrefixC n (c :: t) || hasInfixC n t

/-- Substring test on strings. -/
def hasInfixS (n h : String) : Bool :=
  hasInfixC n.data h.data

/-- Python's `str.lower` on the ASCII strings of the pipeline. -/
def lowerS (s : String) : String :=
  ⟨s.data.map Char.toLower⟩

/-- Python's `str.strip`: remove leading and trailing whitespace. -/
def trimC (s : String) : String :=
  ⟨((s.data.dropWhile isSpaceCh).reverse.dropWhile isSpaceCh).reverse⟩

/-- Python's `str.split` on a one-character separator. -/
def splitCh (sep : Char) : List Char → List (List Char)
  | [] => [[]]
  | c :: t =>
    let r := splitCh sep t
    if c == sep then [] :: r
    else
      match r with
      | [] => [[c]]
      | h :: rest => (c :: h) :: rest

/-- Case-insensitive substring test, as performed by `re.search` with
`re.IGNORECASE` on a pattern that is an alternation of literal words. -/
def containsCI (n h : String) : Bool :=
  hasInfixC (lowerS n).data (lowerS h).data

/-- Case-insensitive search for any of the listed literal alternatives. -/
def containsAnyCI (keys : List String) (h : String) : Bool :=
  keys.any (fun k => containsCI k h)

/-- Index of the first occurrence of a substring, `str.find` in Python. -/
def findSubPos (n : List Char) : List Char → Option Nat
  | [] => if hasPrefixC n [] then some 0 else none
  | c :: t =>
    if hasPrefixC n (c :: t) then some 0
    else (findSubPos n t).map (· + 1)

/-- Earliest position at which one of the given literals matches
case-insensitively, the position of the first match of an `re.IGNORECASE`
alternation search such as the table-closing-keyword search. -/
def findFirstPosAnyCI (keys : List String) : List Char → Option Nat
  | [] => if keys.any (fun k => k.data.isEmpty) then some 0 else none
  | c :: t =>
    if keys.any (fun k => hasPrefixC (lowerS k).data ((c :: t).map Char.toLower)) then some 0
    else (findFirstPosAnyCI keys t).map (· + 1)

/-- Word-boundary test for the character following a candidate token match. -/
def boundaryAfter : List Char → Bool
  | [] => true
  | c :: _ => !isWordCh c

/-- Scanner behind the searches for standalone `CR` / `DR` tokens:
true when the word occurs delimited by word boundaries on both sides. -/
def searchWordAux (w : List Char) (prevWord : Bool) : List Char → Bool
  | [] => false
  | c :: t =>
    (!prevWord && hasPrefixC w (c :: t) && boundaryAfter ((c :: t).drop w.length))
      || searchWordAux w (isWordCh c) t

/-- Search for a whole word bounded by word boundaries (`\bCR\b`). -/
def searchWordB (w : String) (s : String) : Bool :=
  searchWordAux w.data false s.data

/-- After optionally skipping whitespace, is the next character a digit? -/
def afterSpacesDigit : List Char → Bool
  | [] => false
  | c :: t => if isSpaceCh c then afterSpacesDigit t else c.isDigit

/-- Search for a sign character followed by optional whitespace and a digit,
the `+\s*\d` and `-\s*\d` searches of the Direction Classifier. -/
def searchSignDigit (sign : Char) : List Char → Bool
  | [] => false
  | c :: t => (c == sign && afterSpacesDigit t) || searchSignDigit sign t

/-! ### Python float parsing and banker's rounding -/

/-- Numeric value of a digit character. -/
def digitVal (c : Char) : Nat := c.toNat - 48

/-- Value of a digit string as a natural number. -/
def natOfDigits (l : List Char) : Nat :=
  l.foldl (fun acc c => 10 * acc + digitVal c) 0

/-- Value of the digits after a decimal point. -/
def fracOfDigits (l : List Char) : ℚ :=
  (natOfDigits l : ℚ) / (10 ^ l.length : ℚ)

/-- Unsigned part of Python's `float` conversion: digits with an optional
decimal point, at least one digit present. -/
def parseUnsigned (s : List Char) : Option ℚ :=
  let intPart := s.takeWhile Char.isDigit
  let rest := s.drop intPart.length
  match rest with
  | [] => if intPart.isEmpty then none else some (natOfDigits intPart : ℚ)
  | '.' :: frac =>
    if frac.all Char.isDigit && !(intPart.isEmpty && frac.isEmpty) then
      some ((natOfDigits intPart : ℚ) + fracOfDigits frac)
    else none
  | _ => none

/-- Python's `float(str)` conversion on the plain decimal forms the
extraction pipeline produces; `none` models a raised `ValueError`. -/
def parsePyFloat (s : List Char) : Option ℚ :=
  match s with
  | '-' :: rest => (parseUnsigned rest).map (fun q => -q)
  | '+' :: rest => parseUnsigned rest
  | _ => parseUnsigned s

/-- Round a rational to an integer, ties to the even neighbour, as Python's
`round` does. -/
def rhe (x : ℚ) : ℤ :=
  let f := ⌊x⌋
  let r := x - (f : ℚ)
  if r < 1 / 2 then f
  else if 1 / 2 < r then f + 1
  else if 2 ∣ f then f else f + 1

/-- Python `round(x, 2)`: round to two decimal places. -/
def round2 (x : ℚ) : ℚ :=
  (rhe (x * 100) : ℚ) / 100

/-! ### Data model

Python dict results are embedded as structures; a key that a code path
leaves unset is modelled as `none` (or `[]` for the warnings list, which no
embedded code path ever reads before writing). -/

/-- One extracted transaction.  Every field is optional because the
reconciliation replay guards each access on key presence. -/
structure Txn where
  date : Option String
  description : Option String
  direction : Option String
  amount : Option ℚ
deriving DecidableEq, Repr

/-- The validation verdict dict produced by the reconciliation validator. -/
structure ValidationResult where
  is_valid : Bool
  warnings : List String
  calculated_ending_balance : Option ℚ
  expected_ending_balance : Option ℚ
  difference : Option ℚ
  message : String
deriving DecidableEq, Repr

/-- A parsed statement result dict. -/
structure Statement where
  starting_balance : Option ℚ
  ending_balance : Option ℚ
  transactions : List Txn
  validation : ValidationResult
  parsing_method : Option String
  error : Option String
deriving DecidableEq, Repr

/-! ### Reconciliation validator

Embeds `BankStatementParser._validate_transactions` (parser.py), which is
textually identical in logic to `validate_transactions` (utils.py) and
`AIBankStatementParser._validate_transactions` (ai_parser.py). -/

/-- One replay step of the calculated-ending-balance loop: transactions
missing direction or amount are skipped, a direction lower-casing to
"credit" adds, one lower-casing to "debit" subtracts, anything else is
ignored. -/
def replayStep (acc : ℚ) (t : Txn) : ℚ :=
  match t.direction, t.amount with
  | some d, some a =>
    if lowerS d = "credit" then acc + a
    else if lowerS d = "debit" then acc - a
    else acc
  | _, _ => acc

/-- The calculated ending balance: starting balance replayed through the
transaction list. -/
def calcEnding (sb : ℚ) (ts : List Txn) : ℚ :=
  ts.foldl replayStep sb

/-- Count of transactions missing a required field. -/
def invalidTxnCount (ts : List Txn) : Nat :=
  (ts.filter (fun t => t.amount.isNone || t.direction.isNone)).length

/-- Warnings list of the validator, appended in source order. -/
def validationWarnings (sb eb : Option ℚ) (ts : List Txn) : List String :=
  (if sb.isNone then ["Could not extract starting balance"] else [])
    ++ (if eb.isNone then ["Could not extract ending balance"] else [])
    ++ (if ts.isEmpty then ["No transactions were extracted"] else [])
    ++ (if invalidTxnCount ts ≠ 0 then
          ["Found " ++ toString (invalidTxnCount ts)
            ++ " transactions with missing required fields"]
        else [])

/-- The reconciliation validator `_validate_transactions`. -/
def validate_transactions (sb eb : Option ℚ) (ts : List Txn) : ValidationResult :=
  let warnings := validationWarnings sb eb ts
  match sb, eb with
  | some s, some e =>
    let calcV := round2 (calcEnding s ts)
    let exp := round2 e
    let diff := calcV - exp
    let valid := decide (|diff| < 1 / 100)
    { is_valid := valid
      warnings := warnings
      calculated_ending_balance := some calcV
      expected_ending_balance := some exp
      difference := some diff
      message :=
        if valid then "Balance calculation is valid"
        else "Discrepancy detected in balance calculation" }
  | _, _ =>
    { is_valid := false
      warnings := warnings
      calculated_ending_balance := none
      expected_ending_balance := eb
      difference := none
      message := "Cannot validate: Missing balance information" }

/-! ### A small backtracking regex matcher

The extraction patterns of the source use only literals, character classes,
alternation, optional groups, capturing groups and counted repetition of
single-character classes.  `mres` enumerates the possible (captures,
remaining input) outcomes of matching a pattern at the head of the input in
exactly the preference order of Python's backtracking engine: greedy
repetitions longest first, lazy ones shortest first, alternatives left
first. -/

/-- Capture environment: regex group index to captured characters. -/
abbrev Caps := List (Nat × List Char)

/-- Look up a capture group; the entry written last shadows earlier ones. -/
def capGet (caps : Caps) (n : Nat) : Option (List Char) :=
  (caps.find? (fun p => p.1 == n)).map (fun p => p.2)

/-- Regex abstract syntax: epsilon, one character of a class, sequencing,
prioritised alternation, a capturing group, and counted repetition of a
character class (greedy when the flag is true, lazy otherwise). -/
inductive Re where
  | eps : Re
  | cls : (Char → Bool) → Re
  | seq : Re → Re → Re
  | alt : Re → Re → Re
  | grp : Nat → Re → Re
  | rep : Bool → (Char → Bool) → Nat → Option Nat → Re

/-- Length of the maximal prefix whose characters satisfy the class. -/
def runLen (p : Char → Bool) : List Char → Nat
  | [] => 0
  | c :: t => if p c then runLen p t + 1 else 0

/-- Consumption counts a repetition may take, in preference order. -/
def repCounts (greedy : Bool) (lo : Nat) (hi : Option Nat) (m : Nat) : List Nat :=
  let top := match hi with
    | none => m
    | some h => min m h
  if lo ≤ top then
    (List.range (top + 1 - lo)).map (fun k => if greedy then top - k else lo + k)
  else []

/-- All outcomes of matching a pattern at the head of the input, as pairs of
capture environment and remaining input, in backtracking preference order. -/
def mres : Re → List Char → List (Caps × List Char)
  | .eps, s => [([], s)]
  | .cls p, s =>
    match s with
    | [] => []
    | c :: t => if p c then [([], t)] else []
  | .seq a b, s =>
    (mres a s).flatMap (fun pa => (mres b pa.2).map (fun pb => (pb.1 ++ pa.1, pb.2)))
  | .alt a b, s => mres a s ++ mres b s
  | .grp n r, s =>
    (mres r s).map (fun pr => ((n, s.take (s.length - pr.2.length)) :: pr.1, pr.2))
  | .rep g p lo hi, s =>
    (repCounts g lo hi (runLen p s)).map (fun k => ([], s.drop k))

/-- Python `re.match` against the start of the string: does some outcome
exist? -/
def matchPrefixRe (r : Re) (s : List Char) : Bool :=
  !(mres r s).isEmpty

/-- Head outcome of a prefix match: captures and number of characters
consumed. -/
def matchPrefixCaps (r : Re) (s : List Char) : Option (Caps × Nat) :=
  match mres r s with
  | [] => none
  | pr :: _ => some (pr.1, s.length - pr.2.length)

/-- Python `re.search`: scan positions left to right and take the preferred
match at the first position that admits one.  Returns the match start,
its captures and its length. -/
def searchAux (r : Re) : Nat → List Char → Option (Nat × Caps × Nat)
  | i, [] =>
    match mres r [] with
    | pr :: _ => some (i, pr.1, 0)
    | [] => none
  | i, c :: t =>
    match mres r (c :: t) with
    | pr :: _ => some (i, pr.1, (c :: t).length - pr.2.length)
    | [] => searchAux r (i + 1) t

/-- Search returning the captures and the matched text (`group(0)`). -/
def reSearchG0 (r : Re) (s : List Char) : Option (Caps × List Char) :=
  (searchAux r 0 s).map (fun pr => (pr.2.1, (s.drop pr.1).take pr.2.2))

/-- Non-overlapping successive matches with absolute positions and lengths,
Python's `re.finditer`; the fuel argument bounds the recursion. -/
def finditerPos (r : Re) : Nat → Nat → List Char → List (Nat × Nat)
  | 0, _, _ => []
  | fuel + 1, pos, s =>
    match searchAux r 0 s with
    | none => []
    | some (st, _, len) =>
      let adv := st + max len 1
      (pos + st, len) :: finditerPos r fuel (pos + adv) (s.drop adv)

/-! ### Regex construction helpers -/

/-- Single literal character (case-sensitive). -/
def chS (c : Char) : Re := .cls (fun x => x == c)

/-- Single literal character matched case-insensitively. -/
def chI (c : Char) : Re := .cls (fun x => x.toLower == c.toLower)

/-- Sequence a list of regexes. -/
def reCat (l : List Re) : Re := l.foldr Re.seq .eps

/-- Case-sensitive literal string. -/
def litS (s : String) : Re := reCat (s.data.map chS)

/-- Case-insensitive literal string. -/
def litI (s : String) : Re := reCat (s.data.map chI)

/-- Prioritised alternation of a list of regexes (leftmost preferred). -/
def reAlts : List Re → Re
  | [] => .eps
  | [r] => r
  | r :: rest => .alt r (reAlts rest)

/-- Greedy optional. -/
def reOpt (r : Re) : Re := .alt r .eps

/-- Greedy repetition of digits with the given count bounds. -/
def reD (lo : Nat) (hi : Option Nat) : Re := .rep true Char.isDigit lo hi

/-- One or more whitespace characters, `\s+`. -/
def reSp : Re := .rep true isSpaceCh 1 none

/-- Optional currency symbol, `[$£€]?`. -/
def reCurOpt : Re := reOpt (.cls isCurCh)

/-- Amount capture `([\d,]+\.\d{2})` wrapped in the given group index. -/
def amtG (idx : Nat) : Re :=
  .grp idx (reCat [.rep true isDigitComma 1 none, chS '.', reD 2 (some 2)])

/-- Amount capture `(\d+,?\d*\.\d{2})` wrapped in the given group index. -/
def amtG2 (idx : Nat) : Re :=
  .grp idx (reCat
    [reD 1 none, .rep true (fun c => c == ',') 0 (some 1),
     .rep true Char.isDigit 0 none, chS '.', reD 2 (some 2)])

/-- Lazy description capture `([A-Za-z0-9\s.,&\-]+?)`. -/
def descLazy (idx : Nat) : Re := .grp idx (.rep false isDescCh 1 none)

/-! ### Date Normalizer

Embeds `BankStatementParser._parse_date` (parser.py).  `datetime.strptime`
followed by `datetime.strftime('%Y-%m-%d')` is embedded per format as a
full-string field parse with calendar validation (a raised `ValueError` is
`none`) followed by zero-padded formatting. -/

/-- Gregorian leap-year test, as `datetime` uses. -/
def isLeap (y : Nat) : Bool :=
  (y % 4 == 0 && y % 100 != 0) || y % 400 == 0

/-- Days in a month of a year. -/
def daysInMonth (y m : Nat) : Nat :=
  if m == 2 then (if isLeap y then 29 else 28)
  else if m == 4 || m == 6 || m == 9 || m == 11 then 30
  else 31

/-- Validity of a calendar date acceptable to `datetime`. -/
def validYMD (y m d : Nat) : Bool :=
  1 ≤ y && y ≤ 9999 && 1 ≤ m && m ≤ 12 && 1 ≤ d && d ≤ daysInMonth y m

/-- Nonempty all-digit field of bounded width. -/
def digitField (lo hi : Nat) (l : List Char) : Bool :=
  lo ≤ l.length && l.length ≤ hi && l.all Char.isDigit

/-- Parse one date field given its permitted widths. -/
def fieldNat (lo hi : Nat) (l : List Char) : Option Nat :=
  if digitField lo hi l then some (natOfDigits l) else none

/-- Split a token at a separator into exactly three fields. -/
def threeFields (sep : Char) (s : String) : Option (List Char × List Char × List Char) :=
  match splitCh sep s.data with
  | [a, b, c] => some (a, b, c)
  | _ => none

/-- Full-string `strptime` for day-first formats (`%d/%m/%Y`, `%d-%m-%Y`). -/
def strpDMY (sep : Char) (s : String) : Option (Nat × Nat × Nat) :=
  match threeFields sep s with
  | none => none
  | some (df, mf, yf) =>
    match fieldNat 1 2 df, fieldNat 1 2 mf, fieldNat 4 4 yf with
    | some d, some m, some y => if validYMD y m d then some (y, m, d) else none
    | _, _, _ => none

/-- Full-string `strptime` for `%m/%d/%Y`. -/
def strpMDY (s : String) : Option (Nat × Nat × Nat) :=
  match threeFields '/' s with
  | none => none
  | some (mf, df, yf) =>
    match fieldNat 1 2 mf, fieldNat 1 2 df, fieldNat 4 4 yf with
    | some m, some d, some y => if validYMD y m d then some (y, m, d) else none
    | _, _, _ => none

/-- Full-string `strptime` for `%Y-%m-%d`. -/
def strpYMD (s : String) : Option (Nat × Nat × Nat) :=
  match threeFields '-' s with
  | none => none
  | some (yf, mf, df) =>
    match fieldNat 4 4 yf, fieldNat 1 2 mf, fieldNat 1 2 df with
    | some y, some m, some d => if validYMD y m d then some (y, m, d) else none
    | _, _, _ => none

/-- Two-digit zero-padded decimal, `%02d`. -/
def pad2 (n : Nat) : String :=
  ⟨[Nat.digitChar (n / 10 % 10), Nat.digitChar (n % 10)]⟩

/-- Four-digit zero-padded decimal, `%04d`. -/
def pad4 (n : Nat) : String :=
  ⟨[Nat.digitChar (n / 1000 % 10), Nat.digitChar (n / 100 % 10),
    Nat.digitChar (n / 10 % 10), Nat.digitChar (n % 10)]⟩

/-- `strftime('%Y-%m-%d')` of a parsed date. -/
def fmtYMD (ymd : Nat × Nat × Nat) : String :=
  pad4 ymd.1 ++ "-" ++ pad2 ymd.2.1 ++ "-" ++ pad2 ymd.2.2

/-- Format the parsed date, or fall back to the original token when the
parse raised. -/
def fmtOrTok (o : Option (Nat × Nat × Nat)) (tok : String) : String :=
  match o with
  | some ymd => fmtYMD ymd
  | none => tok

/-- First run of four consecutive digits in a text, the `\d{4}` year scan
of the normalizer, as a number. -/
def firstFour : List Char → Option Nat
  | a :: b :: c :: d :: rest =>
    if a.isDigit && b.isDigit && c.isDigit && d.isDigit then
      some (natOfDigits [a, b, c, d])
    else firstFour (b :: c :: d :: rest)
  | _ => none

/-- Prefix shape `\d{2}/\d{2}/\d{4}`. -/
def dateShape1 : Re :=
  reCat [reD 2 (some 2), chS '/', reD 2 (some 2), chS '/', reD 4 (some 4)]

/-- Prefix shape `\d{1,2}/\d{1,2}/\d{4}`. -/
def dateShape2 : Re :=
  reCat [reD 1 (some 2), chS '/', reD 1 (some 2), chS '/', reD 4 (some 4)]

/-- Prefix shape `\d{1,2}/\d{1,2}`. -/
def dateShape3 : Re :=
  reCat [reD 1 (some 2), chS '/', reD 1 (some 2)]

/-- Prefix shape `\d{1,2}-\d{1,2}-\d{4}`. -/
def dateShape4 : Re :=
  reCat [reD 1 (some 2), chS '-', reD 1 (some 2), chS '-', reD 4 (some 4)]

/-- Prefix shape `\d{4}-\d{1,2}-\d{1,2}`. -/
def dateShape5 : Re :=
  reCat [reD 4 (some 4), chS '-', reD 1 (some 2), chS '-', reD 1 (some 2)]

/-- Year used by the `MM/DD` branch: the first four-digit number in the
first 200 characters of the context, else the current calendar year
(passed in as a parameter since the embedding has no clock). -/
def yearFromCtx (currentYear : Nat) (ctx : String) : Nat :=
  (firstFour (ctx.data.take 200)).getD currentYear

/-- The Date Normalizer `_parse_date`. -/
def parse_date (currentYear : Nat) (dateStr ctx : String) : String :=
  let s := dateStr.data
  if matchPrefixRe dateShape1 s then fmtOrTok (strpDMY '/' dateStr) dateStr
  else if matchPrefixRe dateShape2 s then fmtOrTok (strpMDY dateStr) dateStr
  else if matchPrefixRe dateShape3 s then
    fmtOrTok (strpMDY (dateStr ++ "/" ++ toString (yearFromCtx currentYear ctx))) dateStr
  else if matchPrefixRe dateShape4 s then fmtOrTok (strpDMY '-' dateStr) dateStr
  else if matchPrefixRe dateShape5 s then fmtOrTok (strpYMD dateStr) dateStr
  else dateStr

/-! ### Direction Classifier

Two implementations exist in the source: the method
`BankStatementParser._determine_transaction_direction` (parser.py) and the
module function `determine_transaction_direction` (utils.py) used by the
generic strategies behind the Strategy Selector. -/

/-- Credit keywords of the parser.py classifier. -/
def creditIndicatorsP : List String :=
  ["credit", "deposit", "interest", "refund", "transfer in",
   "salary", "income", "payment received"]

/-- Debit keywords of the parser.py classifier. -/
def debitIndicatorsP : List String :=
  ["debit", "withdrawal", "payment", "purchase", "fee",
   "charge", "transfer out", "check"]

/-- Deposit phrases that force Credit in the parser.py classifier. -/
def depositTerms : List String := ["deposit", "bankcard", "mtot dep"]

/-- Secondary expense keywords of the parser.py classifier. -/
def expenseTerms : List String :=
  ["purchase", "payment", "withdrawal", "fee", "charge"]

/-- The parser.py Direction Classifier
`_determine_transaction_direction`. -/
def parser_determine_transaction_direction
    (t : String) (creditSection debitSection : Bool) : String :=
  if creditSection then "Credit"
  else if debitSection then "Debit"
  else
    let lower := lowerS t
    if hasInfixS "deposit made in a branch/store" lower then "Credit"
    else if depositTerms.any (fun k => hasInfixS k lower) then "Credit"
    else if searchWordB "CR" t || searchSignDigit '+' t.data then "Credit"
    else if searchWordB "DR" t || searchSignDigit '-' t.data then "Debit"
    else if creditIndicatorsP.any (fun k => hasInfixS k lower) then "Credit"
    else if debitIndicatorsP.any (fun k => hasInfixS k lower) then "Debit"
    else if expenseTerms.any (fun k => hasInfixS k lower) then "Debit"
    else "Debit"

/-- Credit keywords of the utils.py classifier. -/
def creditIndicatorsU : List String :=
  ["credit", "deposit", "interest", "refund", "transfer in", "salary", "income"]

/-- Debit keywords of the utils.py classifier. -/
def debitIndicatorsU : List String :=
  ["debit", "withdrawal", "payment", "purchase", "fee", "charge", "transfer out"]

/-- The utils.py Direction Classifier `determine_transaction_direction`:
section flags, then explicit CR/DR or sign cues, then keyword sets, then
default Debit — with no deposit-phrase step and no secondary expense
step. -/
def determine_transaction_direction
    (t : String) (creditSection debitSection : Bool) : String :=
  if creditSection then "Credit"
  else if debitSection then "Debit"
  else
    let lower := lowerS t
    if searchWordB "CR" t || searchSignDigit '+' t.data then "Credit"
    else if searchWordB "DR" t || searchSignDigit '-' t.data then "Debit"
    else if creditIndicatorsU.any (fun k => hasInfixS k lower) then "Credit"
    else if debitIndicatorsU.any (fun k => hasInfixS k lower) then "Debit"
    else "Debit"

/-- The priority order of the Direction Classifier exactly as the
specification words it: (1) section flags; (2) deposit-specific phrases
force Credit; (3) explicit CR tokens or a plus sign adjacent to a digit
force Credit, DR tokens or a minus sign adjacent to a digit force Debit;
(4) the credit-keyword set checked before the debit-keyword set; (5) a
secondary expense-keyword check forcing Debit; (6) default Debit. -/
def claimedDirectionOrder
    (t : String) (creditSection debitSection : Bool) : String :=
  if creditSection then "Credit"
  else if debitSection then "Debit"
  else
    let lower := lowerS t
    if depositTerms.any (fun k => hasInfixS k lower) then "Credit"
    else if searchWordB "CR" t || searchSignDigit '+' t.data then "Credit"
    else if searchWordB "DR" t || searchSignDigit '-' t.data then "Debit"
    else if creditIndicatorsP.any (fun k => hasInfixS k lower) then "Credit"
    else if debitIndicatorsP.any (fun k => hasInfixS k lower) then "Debit"
    else if expenseTerms.any (fun k => hasInfixS k lower) then "Debit"
    else "Debit"

/-! ### Pattern-based transaction extraction

Embeds `BankStatementParser._extract_pattern_transactions` (parser.py):
the five transaction shape patterns, tried per line with the credit/debit
section state threaded through the section-header checks. -/

/-- Shape `(\d{2}/\d{2}/\d{4})\s+([A-Za-z0-9\s.,&\-]+?)\s+(Credit|Debit)\s+[$£€]?([\d,]+\.\d{2})`. -/
def txnP1 : Re :=
  reCat
    [.grp 1 (reCat [reD 2 (some 2), chS '/', reD 2 (some 2), chS '/', reD 4 (some 4)]),
     reSp, descLazy 2, reSp,
     .grp 3 (.alt (litS "Credit") (litS "Debit")),
     reSp, reCurOpt, amtG 4]

/-- Shape `(\d{1,2}/\d{1,2})\s+([A-Za-z0-9\s.,&\-]+?)\s+(\d+,?\d*\.\d{2})`. -/
def txnP2 : Re :=
  reCat
    [.grp 1 (reCat [reD 1 (some 2), chS '/', reD 1 (some 2)]),
     reSp, descLazy 2, reSp, amtG2 3]

/-- Shape `(\d{1,2}/\d{1,2}(?:/\d{2,4})?)\s+([A-Za-z0-9\s.,&\-]+?)\s+([A-Z]{2,5})?\s+[$£€]?([\d,]+\.\d{2})`. -/
def txnP3 : Re :=
  reCat
    [.grp 1 (reCat [reD 1 (some 2), chS '/', reD 1 (some 2),
       reOpt (reCat [chS '/', reD 2 (some 4)])]),
     reSp, descLazy 2, reSp,
     reOpt (.grp 3 (.rep true Char.isUpper 2 (some 5))),
     reSp, reCurOpt, amtG 4]

/-- Shape pattern four of the source: a date with slash-or-dash separators
and optional year, whitespace, a non-currency non-digit description,
whitespace, an optional currency symbol and an amount capture. -/
def txnP4 : Re :=
  reCat
    [.grp 1 (reCat [reD 1 (some 2), .cls isDashSlash, reD 1 (some 2),
       reOpt (reCat [.cls isDashSlash, reD 2 (some 4)])]),
     reSp,
     .grp 2 (.rep true (fun c => !(isCurCh c || c.isDigit)) 1 none),
     reSp, reCurOpt, amtG 3]

/-- Shape pattern five of the source: a full date with slash-or-dash
separators, an optional second (post) date, a lazy description capture, an
optional currency symbol, an amount capture and an optional trailing D or
R code. -/
def txnP5 : Re :=
  reCat
    [.grp 1 (reCat [reD 1 (some 2), .cls isDashSlash, reD 1 (some 2),
       .cls isDashSlash, reD 2 (some 4)]),
     reSp,
     reOpt (.grp 2 (reCat [reD 1 (some 2), .cls isDashSlash, reD 1 (some 2),
       .cls isDashSlash, reD 2 (some 4)])),
     reSp, descLazy 3, reSp, reCurOpt, amtG 4,
     .rep true isSpaceCh 0 none,
     reOpt (.cls (fun c => c == 'D' || c == 'R'))]

/-- The ordered transaction pattern list, each with the number of groups
the pattern defines (the length of Python's `match.groups()`). -/
def transactionPatterns : List (Re × Nat) :=
  [(txnP1, 4), (txnP2, 3), (txnP3, 4), (txnP4, 3), (txnP5, 4)]

/-- Capture as a string. -/
def capStr (caps : Caps) (n : Nat) : Option String :=
  (capGet caps n).map List.asString

/-- Python truthiness of an optional string group: set and nonempty. -/
def truthyS (o : Option String) : Bool :=
  match o with
  | some s => !s.data.isEmpty
  | none => false

/-- Description from a group per the source: stripped when truthy, else
the placeholder "Unknown". -/
def descOf (o : Option String) : String :=
  if truthyS o then trimC (o.getD "") else "Unknown"

/-- Prefix shape of a short date with slash-or-dash separator, used to
recognise a post-date group. -/
def postDateShape : Re :=
  reCat [reD 1 (some 2), .cls isDashSlash, reD 1 (some 2)]

/-- Description, raw amount string and direction chosen from the capture
groups exactly as the group-count dispatch of the source does. -/
def txnParts (cs ds : Bool) (ng : Nat) (caps : Caps) (g0 : String)
    (dateStr : String) : Option (String × String × String) :=
  if ng < 2 then none
  else if 4 ≤ ng then
    let g2 := capStr caps 2
    if truthyS g2 && matchPrefixRe postDateShape (g2.getD "").data then
      some (descOf (capStr caps 3), (capStr caps 4).getD "",
        parser_determine_transaction_direction g0 cs ds)
    else
      let ind := (capStr caps 3).getD ""
      let dir :=
        if ind == "Credit" || ind == "CR" then "Credit"
        else if ind == "Debit" || ind == "DR" then "Debit"
        else parser_determine_transaction_direction g0 cs ds
      some (descOf g2, (capStr caps 4).getD "", dir)
  else if ng == 3 then
    some (descOf (capStr caps 2), (capStr caps 3).getD "",
      parser_determine_transaction_direction g0 cs ds)
  else
    some ("Transaction on " ++ dateStr, (capStr caps 2).getD "",
      parser_determine_transaction_direction g0 cs ds)

/-- Cleanup applied to a raw amount capture before `float`: commas removed,
then every character that is not a digit, dot or comma removed. -/
def cleanAmount (s : String) : List Char :=
  (s.data.filter (fun c => !(c == ','))).filter
    (fun c => c.isDigit || c == '.' || c == ',')

/-- Build one transaction from a successful pattern match; `none` when the
amount does not convert (the `continue` of the source). -/
def buildTxn (year : Nat) (ctx : String) (cs ds : Bool) (ng : Nat)
    (caps : Caps) (g0 : String) : Option Txn :=
  let dateStr := (capStr caps 1).getD ""
  match txnParts cs ds ng caps g0 dateStr with
  | none => none
  | some (desc, amtStr, dir) =>
    match parsePyFloat (cleanAmount amtStr) with
    | none => none
    | some amt =>
      some ⟨some (parse_date year dateStr ctx), some desc, some dir, some amt⟩

/-- Try one pattern against a line. -/
def tryPattern (year : Nat) (ctx : String) (cs ds : Bool) (line : String)
    (pr : Re × Nat) : Option Txn :=
  match reSearchG0 pr.1 line.data with
  | none => none
  | some (caps, g0) => buildTxn year ctx cs ds pr.2 caps g0.asString

/-- All transactions a single line contributes: one per pattern that
matches it with a convertible amount, in pattern order. -/
def processPatternLine (year : Nat) (ctx : String) (cs ds : Bool)
    (line : String) : List Txn :=
  transactionPatterns.filterMap (tryPattern year ctx cs ds line)

/-- Section-header keywords switching into the credit section. -/
def creditSectionKeys : List String :=
  ["Deposits", "Credits", "Money In", "Incoming", "Income"]

/-- Section-header keywords switching into the debit section. -/
def debitSectionKeys : List String :=
  ["Withdrawals", "Debits", "Money Out", "Outgoing", "Expenses"]

/-- Line loop of `_extract_pattern_transactions`, threading the section
state; a section-header line switches the state and contributes nothing. -/
def patGo (year : Nat) (ctx : String) : Bool → Bool → List String → List Txn
  | _, _, [] => []
  | cs, ds, line :: rest =>
    if containsAnyCI creditSectionKeys line then patGo year ctx true false rest
    else if containsAnyCI debitSectionKeys line then patGo year ctx false true rest
    else processPatternLine year ctx cs ds line ++ patGo year ctx cs ds rest

/-- The pattern-based transaction extraction
`_extract_pattern_transactions`. -/
def extract_pattern_transactions (year : Nat) (text : String) : List Txn :=
  patGo year text false false ((splitCh '\n' text.data).map List.asString)

/-! ### Table-aware transaction extraction

Embeds `BankStatementParser._extract_table_transactions` (parser.py). -/

/-- Table header pattern: Date/Description/Amount style columns. -/
def tableH1 : Re :=
  reCat
    [.grp 1 (.alt (litI "Date") (litI "Transaction Date")), reSp,
     .grp 2 (reAlts [litI "Description", litI "Particulars", litI "Details", litI "Narrative"]),
     reSp,
     .grp 3 (reAlts [litI "Debit", litI "Credit", litI "Amount", litI "Withdrawal", litI "Deposit"])]

/-- Table header pattern: Date Transaction Amount Balance. -/
def tableH2 : Re :=
  reCat
    [.grp 1 (litI "Date"), reSp, .grp 2 (litI "Transaction"), reSp,
     .grp 3 (litI "Amount"), reSp, .grp 4 (litI "Balance")]

/-- Table header pattern: Date Reference Amount Type. -/
def tableH3 : Re :=
  reCat
    [.grp 1 (litI "Date"), reSp, .grp 2 (litI "Reference"), reSp,
     .grp 3 (litI "Amount"), reSp, .grp 4 (litI "Type")]

/-- The table header patterns in source order. -/
def tableHeaderRes : List Re := [tableH1, tableH2, tableH3]

/-- Keywords whose first occurrence closes a table region. -/
def tableClosingKeys : List String :=
  ["Balance brought forward", "Closing Balance", "Total", "Summary"]

/-- Keywords that mark a line as a header line to skip inside a region. -/
def tableSkipKeys : List String :=
  ["Date", "Description", "Amount", "Balance", "Reference"]

/-- The candidate table regions: for each header pattern, for each match,
the text from the header's end to the first closing keyword (or the end of
the document). -/
def tableSections (text : List Char) : List (List Char) :=
  tableHeaderRes.flatMap (fun r =>
    (finditerPos r (text.length + 1) 0 text).map (fun se =>
      let tail := text.drop (se.1 + se.2)
      match findFirstPosAnyCI tableClosingKeys tail with
      | some e => tail.take e
      | none => tail))

/-- Scan a line for the first currency-decimal-shaped substring,
the search for `(?:[$£€])?([\d,]+\.\d{2})`; returns the whole match
(group 0) and the numeric capture (group 1). -/
def amtAt (s : List Char) : Option (List Char) :=
  let k := runLen isDigitComma s
  if 1 ≤ k then
    match s.drop k with
    | '.' :: d1 :: d2 :: _ =>
      if d1.isDigit && d2.isDigit then some (s.take (k + 3)) else none
    | _ => none
  else none

/-- First-position amount search of the table strategy. -/
def findAmount : List Char → Option (List Char × List Char)
  | [] => none
  | c :: t =>
    if isCurCh c then
      match amtAt t with
      | some g1 => some (c :: g1, g1)
      | none => findAmount t
    else
      match amtAt (c :: t) with
      | some g1 => some (g1, g1)
      | none => findAmount t

/-- Date-at-line-start pattern of the table strategy (whole pattern is
group 1). -/
def tableDateRe : Re :=
  .grp 1 (reCat [reD 1 (some 2), .cls isDashSlash, reD 1 (some 2),
    reOpt (reCat [.cls isDashSlash, reD 2 (some 4)])])

/-- Process one line of a table region into at most one transaction. -/
def tableLineTxn (year : Nat) (ctx : String) (line : String) : Option Txn :=
  if (trimC line).data.isEmpty then none
  else if containsAnyCI tableSkipKeys line then none
  else
    let stripped := trimC line
    match matchPrefixCaps tableDateRe stripped.data with
    | none => none
    | some (caps, dateEnd) =>
      let dateStr := ((capGet caps 1).getD []).asString
      match findAmount line.data with
      | none => none
      | some (g0, g1) =>
        let amount := (parsePyFloat (g1.filter (fun c => !(c == ',')))).getD 0
        let desc :=
          match findSubPos g0 stripped.data with
          | some p =>
            if dateEnd < p then
              trimC ((stripped.data.drop dateEnd).take (p - dateEnd)).asString
            else "Transaction on " ++ dateStr
          | none => "Transaction on " ++ dateStr
        some
          ⟨some (parse_date year dateStr ctx), some desc,
           some (parser_determine_transaction_direction line false false),
           some amount⟩

/-- The table-aware transaction extraction `_extract_table_transactions`. -/
def extract_table_transactions (year : Nat) (text : String) : List Txn :=
  (tableSections text.data).flatMap (fun sec =>
    ((splitCh '\n' (trimC sec.asString).data).map List.asString).filterMap
      (tableLineTxn year text))

/-! ### Balance Extractor

Embeds `_extract_starting_balance` and `_extract_ending_balance`
(parser.py; utils.py carries the same pattern lists minus the last
bank-specific starting pattern, which is harmless since every claim here
concerns the parser.py pipeline). -/

/-- Shared tail of the labelled balance patterns: separator, optional
currency symbol, amount capture. -/
def balTail : Re := reCat [.rep true isColonSpace 1 none, reCurOpt, amtG 1]

/-- Any character except a newline or carriage return. -/
def notNLCh (c : Char) : Bool := !(c == '\n' || c == '\r')

/-- Date piece of the date-qualified balance patterns:
a short date with an optional year part. -/
def balDate : Re :=
  reCat [reD 1 (some 2), .cls isDashSlash, reD 1 (some 2),
    reOpt (reCat [.cls isDashSlash, reD 2 (some 4)])]

/-- Full-date piece of the period-boundary balance patterns. -/
def balDateFull : Re :=
  reCat [reD 1 (some 2), .cls isDashSlash, reD 1 (some 2),
    .cls isDashSlash, reD 2 (some 4)]

/-- The starting balance patterns, in source order. -/
def startingBalancePatterns : List Re :=
  [reCat [reAlts [litI "Opening", litI "Starting", litI "Beginning"],
     reSp, litI "Balance", balTail],
   reCat [litI "Balance ", reOpt (litI "brought "), litI "forward", balTail],
   reCat [litI "Previous Balance", balTail],
   reCat [litI "Balance ", reOpt (litI "as "), .alt (litI "of") (litI "on"),
     chI ' ', balDate, .rep true (fun c => !c.isDigit) 0 none, reCurOpt, amtG 1],
   reCat [reAlts [litI "Statement", litI "Billing"], litI " Period Begins",
     .rep true isColonSpace 1 none, balDateFull,
     .rep false (fun c => !c.isDigit) 1 none, reCurOpt, amtG 1],
   reCat [.alt (reCat [litI "Start", reOpt (litI "ing")])
            (reCat [litI "Begin", reOpt (litI "ning")]),
     litI " Date", .rep true isColonSpace 1 none, balDateFull,
     .rep false (fun c => !c.isDigit) 1 none, reCurOpt, amtG 1],
   reCat [reAlts [litI "Previous", litI "Old", litI "Last"], chI ' ',
     reOpt (litI "Statement "), litI "Balance", balTail],
   reCat [reAlts [litI "Opening", litI "Beginning", litI "Previous", litI "Start"],
     .rep true notNLCh 0 none, reCurOpt, amtG 1],
   reCat [litI "Beginning balance on ", reD 1 none, chS '/', reD 1 none,
     reSp, chS '$', amtG 1]]

/-- The ending balance patterns, in source order. -/
def endingBalancePatterns : List Re :=
  [reCat [reAlts [litI "Closing", litI "Ending", litI "Final"],
     reSp, litI "Balance", balTail],
   reCat [.alt (litI "Current") (litI "New"), litI " Balance", balTail],
   reCat [litI "Balance ", reOpt (litI "as "), .alt (litI "of") (litI "on"),
     chI ' ', balDateFull, balTail],
   reCat [litI "Ending balance on ", reD 1 (some 2), .cls isDashSlash,
     reD 1 (some 2), balTail],
   reCat [reAlts [litI "Statement", litI "Billing"], litI " Period Ends",
     .rep true isColonSpace 1 none, balDateFull,
     .rep false (fun c => !c.isDigit) 1 none, reCurOpt, amtG 1],
   reCat [litI "End", reOpt (litI "ing"), litI " Date",
     .rep true isColonSpace 1 none, balDateFull,
     .rep false (fun c => !c.isDigit) 1 none, reCurOpt, amtG 1],
   reCat [reAlts [litI "Closing", litI "Ending", litI "Final", litI "New"],
     .rep true notNLCh 0 none, reCurOpt, amtG 1]]

/-- Try the labelled patterns in order; the first whose captured amount
converts wins. -/
def tryBalancePatterns : List Re → List Char → Option ℚ
  | [], _ => none
  | r :: rest, s =>
    match reSearchG0 r s with
    | some (caps, _) =>
      match capGet caps 1 with
      | some g =>
        match parsePyFloat (g.filter (fun c => !(c == ','))) with
        | some v => some v
        | none => tryBalancePatterns rest s
      | none => tryBalancePatterns rest s
    | none => tryBalancePatterns rest s

/-- Fallback search for a currency-prefixed amount, `[$£€]([\d,]+\.\d{2})`. -/
def curAmtRe : Re := reCat [.cls isCurCh, amtG 1]

/-- Amount value of a capture group of a currency-amount match. -/
def capAmtVal (caps : Caps) : Option ℚ :=
  match capGet caps 1 with
  | some g => parsePyFloat (g.filter (fun c => !(c == ',')))
  | none => none

/-- The starting balance extractor `_extract_starting_balance`: labelled
patterns first, then the first currency-prefixed amount within the first
1000 characters. -/
def extract_starting_balance (text : String) : Option ℚ :=
  match tryBalancePatterns startingBalancePatterns text.data with
  | some v => some v
  | none =>
    match reSearchG0 curAmtRe (text.data.take 1000) with
    | some (caps, _) => capAmtVal caps
    | none => none

/-- The ending balance extractor `_extract_ending_balance`: labelled
patterns first, then the last currency-prefixed amount within the last
1000 characters. -/
def extract_ending_balance (text : String) : Option ℚ :=
  match tryBalancePatterns endingBalancePatterns text.data with
  | some v => some v
  | none =>
    let tail := text.data.drop (text.data.length - 1000)
    match (finditerPos curAmtRe (tail.length + 1) 0 tail).getLast? with
    | some se =>
      match reSearchG0 curAmtRe (tail.drop se.1) with
      | some (caps, _) => capAmtVal caps
      | none => none
    | none => none

/-! ### Per-document heuristic parse

Embeds `BankStatementParser.parse_pdf` (parser.py).  The fallible
PDF-to-text step is the `Except` input: `Except.error e` is an exception
raised while obtaining the text, `Except.ok text` is the extracted text.
The debug-text dump is I/O-only and swallows its own exceptions, so it has
no embedded counterpart. -/

/-- Deduplication signature: date, amount and the first ten characters of
the description (the string key of the source is injective in these three
components, so the tuple is an equivalent embedding). -/
def txnSig (t : Txn) : String × ℚ × String :=
  (t.date.getD "", t.amount.getD 0, ((t.description.getD "").data.take 10).asString)

/-- Append the pattern transactions whose signature is not yet present,
recording each appended signature, as the merge loop of `parse_pdf` does. -/
def mergeStep (acc : List Txn × List (String × ℚ × String)) (t : Txn) :
    List Txn × List (String × ℚ × String) :=
  if acc.2.contains (txnSig t) then acc
  else (acc.1 ++ [t], acc.2 ++ [txnSig t])

/-- Merge of the table-strategy and pattern-strategy transactions. -/
def mergeTxns (tableTs patternTs : List Txn) : List Txn :=
  (patternTs.foldl mergeStep (tableTs, tableTs.map txnSig)).1

/-- The error Statement of the heuristic parser's exception handler:
error set, both balances absent, no transactions, a minimal invalid
validation dict. -/
def errStatementHeur (e : String) : Statement :=
  { starting_balance := none
    ending_balance := none
    transactions := []
    validation :=
      { is_valid := false, warnings := [], calculated_ending_balance := none,
        expected_ending_balance := none, difference := none, message := e }
    parsing_method := none
    error := some e }

/-- The heuristic per-document parse `BankStatementParser.parse_pdf`. -/
def parse_pdf (year : Nat) (textResult : Except String String) : Statement :=
  match textResult with
  | .error e => errStatementHeur ("Error extracting PDF data: " ++ e)
  | .ok text =>
    let sb := extract_starting_balance text
    let eb := extract_ending_balance text
    let merged :=
      mergeTxns (extract_table_transactions year text)
        (extract_pattern_transactions year text)
    { starting_balance := sb
      ending_balance := eb
      transactions := merged
      validation := validate_transactions sb eb merged
      parsing_method := none
      error := none }

/-! ### AI response standardization

Embeds `AIBankStatementParser._standardize_ai_response` and
`AIBankStatementParser.parse_pdf` (ai_parser.py).  The JSON dict returned
by the model is embedded as `AIData`; the fallible API call and JSON
extraction are the `Except` input of `ai_parse_pdf`. -/

/-- A JSON scalar that may be a string or a number. -/
inductive AIVal where
  | str : String → AIVal
  | num : ℚ → AIVal
deriving DecidableEq, Repr

/-- One transaction dict of the AI response. -/
structure AITxn where
  date : Option String
  description : Option String
  amount : Option AIVal
  direction : Option String
  typeField : Option String
deriving DecidableEq, Repr

/-- The AI response dict. -/
structure AIData where
  starting_balance : Option AIVal
  ending_balance : Option AIVal
  transactions : Option (List AITxn)
deriving DecidableEq, Repr

/-- Strip currency symbols and commas from a string, as the
standardization step does before `float`. -/
def stripCur (s : String) : List Char :=
  s.data.filter (fun c => !(isCurCh c || c == ','))

/-- Coerce an optional balance value of the AI response to a number;
a string that does not convert leaves the balance absent. -/
def aiBalance (v : Option AIVal) : Option ℚ :=
  match v with
  | none => none
  | some (.num q) => some q
  | some (.str s) => parsePyFloat (stripCur s)

/-- Direction coercion of the standardization step: substring tests on the
lower-cased direction field, then on the type field, defaulting to
Debit. -/
def aiDirection (t : AITxn) : String :=
  let d := lowerS (t.direction.getD "")
  if hasInfixS "credit" d || hasInfixS "deposit" d then "Credit"
  else if hasInfixS "debit" d || hasInfixS "withdrawal" d then "Debit"
  else
    let tf := lowerS (t.typeField.getD "")
    if hasInfixS "credit" tf || hasInfixS "deposit" tf then "Credit"
    else if hasInfixS "debit" tf || hasInfixS "withdrawal" tf then "Debit"
    else "Debit"

/-- One transaction of the standardization loop; `none` when the amount is
missing or does not convert (the transaction is skipped). -/
def aiTxn (t : AITxn) : Option Txn :=
  let amt : Option ℚ :=
    match t.amount with
    | none => none
    | some (.num q) => some q
    | some (.str s) => parsePyFloat (stripCur s)
  match amt with
  | none => none
  | some a =>
    some ⟨t.date, some (t.description.getD ""), some (aiDirection t), some a⟩

/-- Standardized statement pieces of `_standardize_ai_response`. -/
def standardize_ai_response (d : AIData) : Option ℚ × Option ℚ × List Txn :=
  (aiBalance d.starting_balance, aiBalance d.ending_balance,
    (d.transactions.getD []).filterMap aiTxn)

/-- The error Statement of the AI parser's exception handler. -/
def errStatementAI (e : String) : Statement :=
  { starting_balance := none
    ending_balance := none
    transactions := []
    validation :=
      { is_valid := false, warnings := [e], calculated_ending_balance := none,
        expected_ending_balance := none, difference := none, message := e }
    parsing_method := some "ai_failed"
    error := some e }

/-- The AI per-document parse `AIBankStatementParser.parse_pdf`. -/
def ai_parse_pdf (aiResult : Except String AIData) : Statement :=
  match aiResult with
  | .error e => errStatementAI ("AI parsing failed: " ++ e)
  | .ok d =>
    let r := standardize_ai_response d
    { starting_balance := r.1
      ending_balance := r.2.1
      transactions := r.2.2
      validation := validate_transactions r.1 r.2.1 r.2.2
      parsing_method := some "ai"
      error := none }

/-! ### Batch statistics and batch processing

Embeds `BatchProcessor._calculate_statistics` and
`BatchProcessor.process_batch` (batch_processing.py).  Every statement the
pipeline produces carries a nonempty validation dict, so the dict
truthiness test of the source is always true and is not represented.  The
subtraction `calculated - expected` raises a `TypeError` when the
calculated balance is absent; this is the `Except.error` outcome. -/

/-- The record stored for the highest-variance statement. -/
structure HVRec where
  index : Nat
  expected : ℚ
  calculated : ℚ
  variance : ℚ
deriving DecidableEq, Repr

/-- One step of the highest-variance loop over an enumerated statement. -/
def hvStep (i : Nat) (mv : ℚ) (best : Option HVRec) (s : Statement) :
    Except Unit (ℚ × Option HVRec) :=
  match s.validation.expected_ending_balance with
  | none => .ok (mv, best)
  | some e =>
    if e = 0 then .ok (mv, best)
    else
      match s.validation.calculated_ending_balance with
      | none => .error ()
      | some c =>
        let v := |(c - e) / e| * 100
        if mv < v then .ok (v, some ⟨i, e, c, v⟩) else .ok (mv, best)

/-- The highest-variance loop, starting from a maximum of zero and no
recorded statement. -/
def hvGo (i : Nat) (mv : ℚ) (best : Option HVRec) :
    List Statement → Except Unit (Option HVRec)
  | [] => .ok best
  | s :: rest =>
    match hvStep i mv best s with
    | .error u => .error u
    | .ok st => hvGo (i + 1) st.1 st.2 rest

/-- The aggregate counters and the highest-variance record. -/
structure BatchStatistics where
  total_statements : Nat
  valid_statements : Nat
  invalid_statements : Nat
  total_transactions : Nat
  total_credits : ℚ
  total_debits : ℚ
  highest_variance : Option HVRec
deriving DecidableEq, Repr

/-- Sum of the amounts of the transactions of all statements whose
direction lower-cases to the given word, with missing amounts read as
zero. -/
def totalByDir (d : String) (results : List Statement) : ℚ :=
  (results.flatMap (fun s => s.transactions)).foldl
    (fun acc t =>
      if lowerS (t.direction.getD "") = d then acc + t.amount.getD 0 else acc)
    0

/-- The batch statistics `_calculate_statistics`. -/
def calculate_statistics (results : List Statement) :
    Except Unit BatchStatistics :=
  match hvGo 0 0 none results with
  | .error u => .error u
  | .ok hv =>
    .ok
      { total_statements := results.length
        valid_statements := (results.filter (fun r => r.validation.is_valid)).length
        invalid_statements :=
          results.length - (results.filter (fun r => r.validation.is_valid)).length
        total_transactions := (results.map (fun r => r.transactions.length)).sum
        total_credits := totalByDir "credit" results
        total_debits := totalByDir "debit" results
        highest_variance := hv }

/-- The batch run `process_batch` with the heuristic parser: every
document is parsed independently, results are collected in input order,
then the statistics are computed. -/
def process_batch (year : Nat) (docs : List (Except String String)) :
    Except Unit (List Statement × BatchStatistics) :=
  let results := docs.map (parse_pdf year)
  match calculate_statistics results with
  | .error u => .error u
  | .ok stats => .ok (results, stats)

/-! ### Strategy Selector

Embeds `select_best_result` (utils.py). -/

/-- Completeness score of one candidate result. -/
def scoreOf (r : Statement) : Nat :=
  (if r.starting_balance.isSome then 10 else 0)
    + (if r.ending_balance.isSome then 10 else 0)
    + r.transactions.length * 2
    + (if r.validation.is_valid then 20 else 0)

/-- Stable descending insertion by score: an element is placed before the
first earlier-sorted element of strictly smaller score, so equal scores
keep their original order, as Python's stable `sort(reverse=True)`
does. -/
def ordIns (x : Nat × Statement) : List (Nat × Statement) → List (Nat × Statement)
  | [] => [x]
  | y :: ys => if y.1 ≤ x.1 then x :: y :: ys else y :: ordIns x ys

/-- Stable sort of the scored candidates, highest score first. -/
def sortScored : List (Nat × Statement) → List (Nat × Statement)
  | [] => []
  | x :: xs => ordIns x (sortScored xs)

/-- The default Statement returned for an empty candidate sequence. -/
def defaultNoResults : Statement :=
  { starting_balance := none
    ending_balance := none
    transactions := []
    validation :=
      { is_valid := false, warnings := [], calculated_ending_balance := none,
        expected_ending_balance := none, difference := none,
        message := "No parsing results available" }
    parsing_method := none
    error := none }

/-- The Strategy Selector `select_best_result`. -/
def select_best_result (results : List Statement) : Statement :=
  match sortScored (results.map (fun r => (scoreOf r, r))) with
  | [] => defaultNoResults
  | p :: _ => p.2

/-! ### Specification-side definitions used for refinement comparisons -/

/-- The highest-variance selection exactly as the claim words it: only
statements whose validation is marked `is_valid` and carries a non-zero
expected ending balance participate; each candidate's variance is the
absolute relative deviation times one hundred; the strictly greatest
variance wins and ties keep the earliest index. -/
def claimedHVGo (i : Nat) (best : Option HVRec) : List Statement → Option HVRec
  | [] => best
  | s :: rest =>
    let keep :=
      if s.validation.is_valid then
        match s.validation.expected_ending_balance with
        | some e =>
          if e ≠ 0 then
            let c := (s.validation.calculated_ending_balance).getD 0
            let v := |(c - e) / e| * 100
            match best with
            | none => some ⟨i, e, c, v⟩
            | some b => if b.variance < v then some ⟨i, e, c, v⟩ else some b
          else best
        | none => best
      else best
    claimedHVGo (i + 1) keep rest

/-- Highest-variance selection following the claim's words. -/
def claimedHighestVariance (results : List Statement) : Option HVRec :=
  claimedHVGo 0 none results

/-! ### Replay sums -/

/-- The amount a transaction contributes to the sum for one direction
word: present only when direction and amount are both set and the
direction lower-cases to the word. -/
def dirAmount (d : String) (t : Txn) : Option ℚ :=
  match t.direction, t.amount with
  | some dir, some a => if lowerS dir = d then some a else none
  | _, _ => none

/-- Sum of the amounts of the transactions whose direction lower-cases to
the given word, skipping transactions missing direction or amount. -/
def sumDir (d : String) (ts : List Txn) : ℚ :=
  (ts.filterMap (dirAmount d)).sum

/-- The replay fold equals starting balance plus credit sum minus debit
sum. -/
theorem calcEnding_eq (ts : List Txn) :
    ∀ s : ℚ, calcEnding s ts = s + sumDir "credit" ts - sumDir "debit" ts := by
  induction ts with
  | nil => intro s; simp [calcEnding, sumDir]
  | cons t ts ih =>
    intro s
    have step : calcEnding s (t :: ts) = calcEnding (replayStep s t) ts := rfl
    rw [step, ih]
    rcases hd : t.direction with _ | d <;> rcases ha : t.amount with _ | a
    · simp [replayStep, sumDir, dirAmount, hd, ha]
    · simp [replayStep, sumDir, dirAmount, hd, ha]
    · simp [replayStep, sumDir, dirAmount, hd, ha]
    · by_cases hc : lowerS d = "credit"
      · have hcd : ¬ lowerS d = "debit" := by rw [hc]; decide
        simp [replayStep, sumDir, dirAmount, hd, ha, hc, hcd]
        ring
      · by_cases hdb : lowerS d = "debit"
        · simp [replayStep, sumDir, dirAmount, hd, ha, hc, hdb]
          ring
        · simp [replayStep, sumDir, dirAmount, hd, ha, hc, hdb]

/-- C10: In the reconciliation replay, the calculated ending balance
equals the starting balance plus the amounts of transactions whose
direction lower-cases to "credit" minus the amounts of those whose
direction lower-cases to "debit"; a present direction that lower-cases to
neither contributes zero. -/
theorem C10_replay_ignores_unknown_directions :
    ∀ (s : ℚ) (ts : List Txn),
      calcEnding s ts = s + sumDir "credit" ts - sumDir "debit" ts ∧
      ∀ (t : Txn) (d : String), t.direction = some d →
        lowerS d ≠ "credit" → lowerS d ≠ "debit" → replayStep s t = s := by
  intro s ts
  refine ⟨calcEnding_eq ts s, ?_⟩
  intro t d hd hc hdb
  rcases ha : t.amount with _ | a <;> simp [replayStep, hd, ha, hc, hdb]

/-- Witness for C10 at a transaction with direction "Transfer". -/
theorem C10_replay_ignores_unknown_directions_witness :
    replayStep 5 ⟨some "d", some "x", some "Transfer", some 3⟩ = 5 :=
  (C10_replay_ignores_unknown_directions 5 []).2
    ⟨some "d", some "x", some "Transfer", some 3⟩ "Transfer" rfl
    (by decide) (by decide)

/-- C1: the reconciliation validator validates exactly when both balances
are present and the replayed balance, rounded to two decimals, differs
from the rounded expected balance by strictly less than one hundredth; the
signed difference is reported whenever both balances are present; the
calculated balance is absent whenever either balance is missing. -/
theorem C1_reconciliation_validator :
    ∀ (sb eb : Option ℚ) (ts : List Txn),
      ((validate_transactions sb eb ts).is_valid = true ↔
        ∃ s e, sb = some s ∧ eb = some e ∧
          |round2 (s + sumDir "credit" ts - sumDir "debit" ts) - round2 e|
            < 1 / 100) ∧
      (∀ s e, sb = some s → eb = some e →
        (validate_transactions sb eb ts).difference =
          some (round2 (s + sumDir "credit" ts - sumDir "debit" ts)
            - round2 e)) ∧
      ((sb = none ∨ eb = none) →
        (validate_transactions sb eb ts).calculated_ending_balance = none) := by
  intro sb eb ts
  rcases sb with _ | s <;> rcases eb with _ | e <;>
    simp [validate_transactions, calcEnding_eq]

/-- Witness for C1 at the specification's worked scenario: starting 100,
ending 90, one debit of 20 gives a reported difference of minus ten. -/
theorem C1_reconciliation_validator_witness :
    (validate_transactions (some 100) (some 90)
      [⟨some "2024-05-01", some "Grocery", some "Debit", some 20⟩]).difference
      = some (round2 (100 + sumDir "credit"
          [⟨some "2024-05-01", some "Grocery", some "Debit", some 20⟩]
        - sumDir "debit"
          [⟨some "2024-05-01", some "Grocery", some "Debit", some 20⟩])
        - round2 90) :=
  (C1_reconciliation_validator (some 100) (some 90)
    [⟨some "2024-05-01", some "Grocery", some "Debit", some 20⟩]).2.1
    100 90 rfl rfl

/-! ### Strategy Selector characterization -/

/-- Selecting from a singleton returns its element. -/
theorem select_single (a : Statement) : select_best_result [a] = a := rfl

/-- Unfolding lemma of the stable sort. -/
theorem sortScored_cons (x : Nat × Statement) (xs : List (Nat × Statement)) :
    sortScored (x :: xs) = ordIns x (sortScored xs) := rfl

/-- Unfolding lemma of the stable insertion. -/
theorem ordIns_head (x y : Nat × Statement) (t : List (Nat × Statement)) :
    ordIns x (y :: t) = if y.1 ≤ x.1 then x :: y :: t else y :: ordIns x t := rfl

/-- The sorted scored list starts with the selected statement paired with
its score. -/
theorem sortScored_head (l : List Statement) (hne : l ≠ []) :
    ∃ t, sortScored (l.map (fun r => (scoreOf r, r)))
      = (scoreOf (select_best_result l), select_best_result l) :: t := by
  induction l with
  | nil => exact absurd rfl hne
  | cons a l ih =>
    rcases l with _ | ⟨b, l⟩
    · exact ⟨[], rfl⟩
    · obtain ⟨t, ht⟩ := ih (by simp)
      have key : sortScored ((a :: b :: l).map (fun r => (scoreOf r, r)))
          = ordIns (scoreOf a, a)
              ((scoreOf (select_best_result (b :: l)),
                select_best_result (b :: l)) :: t) := by
        rw [List.map_cons, sortScored_cons, ht]
      by_cases h : scoreOf (select_best_result (b :: l)) ≤ scoreOf a
      · have hx : select_best_result (a :: b :: l) = a := by
          show (match sortScored ((a :: b :: l).map (fun r => (scoreOf r, r))) with
            | [] => defaultNoResults
            | p :: _ => p.2) = a
          rw [key, ordIns_head, if_pos h]
        refine ⟨(scoreOf (select_best_result (b :: l)),
          select_best_result (b :: l)) :: t, ?_⟩
        rw [key, ordIns_head, if_pos h, hx]
      · have hx : select_best_result (a :: b :: l) = select_best_result (b :: l) := by
          show (match sortScored ((a :: b :: l).map (fun r => (scoreOf r, r))) with
            | [] => defaultNoResults
            | p :: _ => p.2) = select_best_result (b :: l)
          rw [key, ordIns_head, if_neg h]
        refine ⟨ordIns (scoreOf a, a) t, ?_⟩
        rw [key, ordIns_head, if_neg h, hx]

/-- Recurrence of the selector on a nonempty tail: the head wins exactly
when its score is at least the best later score. -/
theorem select_cons (a : Statement) (l : List Statement) (hne : l ≠ []) :
    select_best_result (a :: l)
      = if scoreOf (select_best_result l) ≤ scoreOf a then a
        else select_best_result l := by
  obtain ⟨t, ht⟩ := sortScored_head l hne
  have key : sortScored ((a :: l).map (fun r => (scoreOf r, r)))
      = ordIns (scoreOf a, a)
          ((scoreOf (select_best_result l), select_best_result l) :: t) := by
    rw [List.map_cons, sortScored_cons, ht]
  show (match sortScored ((a :: l).map (fun r => (scoreOf r, r))) with
    | [] => defaultNoResults
    | p :: _ => p.2) = _
  rw [key, ordIns_head]
  by_cases h : scoreOf (select_best_result l) ≤ scoreOf a
  · rw [if_pos h, if_pos h]
  · rw [if_neg h, if_neg h]

/-- C2: the Strategy Selector scores candidates by balances, transaction
count and validity; for a nonempty sequence it returns the first candidate
attaining the strictly highest score (earliest on ties); for an empty
sequence it returns a result with both balances absent, no transactions
and an invalid verdict. -/
theorem C2_strategy_selector :
    (∀ r : Statement, scoreOf r
        = (if r.starting_balance.isSome then 10 else 0)
          + (if r.ending_balance.isSome then 10 else 0)
          + 2 * r.transactions.length
          + (if r.validation.is_valid then 20 else 0)) ∧
    ((select_best_result []).starting_balance = none ∧
      (select_best_result []).ending_balance = none ∧
      (select_best_result []).transactions = [] ∧
      (select_best_result []).validation.is_valid = false) ∧
    (∀ l : List Statement, l ≠ [] →
      ∃ i, ∃ h : i < l.length,
        select_best_result l = l.get ⟨i, h⟩ ∧
        (∀ j (hj : j < l.length),
          scoreOf (l.get ⟨j, hj⟩) ≤ scoreOf (select_best_result l)) ∧
        (∀ j (hj : j < l.length), j < i →
          scoreOf (l.get ⟨j, hj⟩) < scoreOf (select_best_result l))) := by
  refine ⟨fun r => by simp [scoreOf]; ring, ⟨rfl, rfl, rfl, rfl⟩, ?_⟩
  intro l
  induction l with
  | nil => intro h; exact absurd rfl h
  | cons a l ih =>
    intro _
    rcases eq_or_ne l [] with hl | hl
    · subst hl
      refine ⟨0, by simp, by simp [select_single], ?_, ?_⟩
      · intro j hj
        have hj0 : j = 0 := by simp at hj; omega
        subst hj0
        simp [select_single]
      · intro j hj hj0
        omega
    · obtain ⟨i, hi, hsel, hub, hfirst⟩ := ih hl
      rw [select_cons a l hl]
      by_cases h : scoreOf (select_best_result l) ≤ scoreOf a
      · rw [if_pos h]
        refine ⟨0, by simp, by simp, ?_, ?_⟩
        · intro j hj
          cases j with
          | zero => simp
          | succ j =>
            have := hub j (by simpa using hj)
            simp only [List.get_cons_succ]
            omega
        · intro j hj hj0
          omega
      · rw [if_neg h]
        refine ⟨i + 1, by simpa using hi, by simpa using hsel, ?_, ?_⟩
        · intro j hj
          cases j with
          | zero => simp; omega
          | succ j => simpa using hub j (by simpa using hj)
        · intro j hj hj0
          cases j with
          | zero => simp; omega
          | succ j =>
            have := hfirst j (by simpa using hj) (by omega)
            simpa using this

/-- A concrete high-scoring candidate used by the selector witness. -/
def sampleRichResult : Statement :=
  { starting_balance := some 100
    ending_balance := some 80
    transactions := [⟨some "2024-05-01", some "Grocery", some "Debit", some 20⟩]
    validation :=
      { is_valid := true, warnings := [], calculated_ending_balance := some 80,
        expected_ending_balance := some 80, difference := some 0,
        message := "Balance calculation is valid" }
    parsing_method := none
    error := none }

/-- Witness for C2: on a concrete two-candidate list the selected result's
score dominates the first candidate's score. -/
theorem C2_strategy_selector_witness :
    scoreOf defaultNoResults
      ≤ scoreOf (select_best_result [defaultNoResults, sampleRichResult]) := by
  obtain ⟨i, hi, hsel, hub, hfirst⟩ :=
    C2_strategy_selector.2.2 [defaultNoResults, sampleRichResult] (by simp)
  simpa using hub 0 (by simp)

/-! ### Date Normalizer properties -/

/-- Equality of UInt32 values follows from equality of their numeric
values. -/
theorem uintEqOfToNat (a b : UInt32) (h : a.toNat = b.toNat) : a = b := by
  cases a
  cases b
  congr 1
  exact BitVec.eq_of_toNat_eq h

/-- The digit character of the value of a digit character is itself. -/
theorem digitChar_recover (c : Char) (h : c.isDigit = true) :
    Nat.digitChar (c.toNat - 48) = c := by
  simp only [Char.isDigit, decide_eq_true_eq, Bool.and_eq_true, ge_iff_le] at h
  obtain ⟨h1, h2⟩ := h
  have hv1 : 48 ≤ c.val.toNat := h1
  have hv2 : c.val.toNat ≤ 57 := h2
  apply Char.ext
  interval_cases hn : c.val.toNat <;>
    (have hv : c.val = UInt32.ofNat c.val.toNat := by
       apply uintEqOfToNat
       simp [hn, UInt32.size]
     rw [show c.toNat - 48 = c.val.toNat - 48 from rfl, hn, hv, hn]
     decide)

/-- A digit character is not a dash (propositional form). -/
theorem digit_ne_dash (c : Char) (h : c.isDigit = true) : (c = '-') = False :=
  eq_false (by rintro rfl; simp at h)

/-- A digit character is not a slash (propositional form). -/
theorem digit_ne_slash (c : Char) (h : c.isDigit = true) : (c = '/') = False :=
  eq_false (by rintro rfl; simp at h)

/-- A digit character is not a dash (boolean form). -/
theorem digit_beq_dash (c : Char) (h : c.isDigit = true) : (c == '-') = false := by
  by_cases hc : c = '-'
  · subst hc; simp at h
  · simp [hc]

/-- The value of a digit character is at most nine. -/
theorem digitVal_le9 (c : Char) (h : c.isDigit = true) : digitVal c ≤ 9 := by
  simp only [Char.isDigit, decide_eq_true_eq, Bool.and_eq_true, ge_iff_le] at h
  have hv2 : c.val.toNat ≤ 57 := h.2
  have : digitVal c = c.val.toNat - 48 := rfl
  omega

/-- The value of a digit character is its numeric digit times powers of
ten when folded. -/
theorem natOfDigits_four (a b c d : Char) :
    natOfDigits [a, b, c, d]
      = 1000 * digitVal a + 100 * digitVal b + 10 * digitVal c + digitVal d := by
  simp only [natOfDigits, List.foldl]
  ring

/-- Value of a two-digit string. -/
theorem natOfDigits_two (a b : Char) :
    natOfDigits [a, b] = 10 * digitVal a + digitVal b := by
  simp only [natOfDigits, List.foldl]
  ring

/-- Four-digit padding undoes the value of a four-digit string. -/
theorem pad4_recover (a b c d : Char) (ha : a.isDigit = true)
    (hb : b.isDigit = true) (hc : c.isDigit = true) (hd : d.isDigit = true) :
    (pad4 (natOfDigits [a, b, c, d])).data = [a, b, c, d] := by
  rw [natOfDigits_four]
  have la := digitVal_le9 a ha
  have lb := digitVal_le9 b hb
  have lc := digitVal_le9 c hc
  have ld := digitVal_le9 d hd
  have e1 : (1000 * digitVal a + 100 * digitVal b + 10 * digitVal c + digitVal d)
      / 1000 % 10 = digitVal a := by omega
  have e2 : (1000 * digitVal a + 100 * digitVal b + 10 * digitVal c + digitVal d)
      / 100 % 10 = digitVal b := by omega
  have e3 : (1000 * digitVal a + 100 * digitVal b + 10 * digitVal c + digitVal d)
      / 10 % 10 = digitVal c := by omega
  have e4 : (1000 * digitVal a + 100 * digitVal b + 10 * digitVal c + digitVal d)
      % 10 = digitVal d := by omega
  show [Nat.digitChar _, Nat.digitChar _, Nat.digitChar _, Nat.digitChar _]
      = [a, b, c, d]
  rw [e1, e2, e3, e4,
    show digitVal a = a.toNat - 48 from rfl, digitChar_recover a ha,
    show digitVal b = b.toNat - 48 from rfl, digitChar_recover b hb,
    show digitVal c = c.toNat - 48 from rfl, digitChar_recover c hc,
    show digitVal d = d.toNat - 48 from rfl, digitChar_recover d hd]

/-- Two-digit padding undoes the value of a two-digit string. -/
theorem pad2_recover (a b : Char) (ha : a.isDigit = true)
    (hb : b.isDigit = true) :
    (pad2 (natOfDigits [a, b])).data = [a, b] := by
  rw [natOfDigits_two]
  have la := digitVal_le9 a ha
  have lb := digitVal_le9 b hb
  have e1 : (10 * digitVal a + digitVal b) / 10 % 10 = digitVal a := by omega
  have e2 : (10 * digitVal a + digitVal b) % 10 = digitVal b := by omega
  show [Nat.digitChar _, Nat.digitChar _] = [a, b]
  rw [e1, e2,
    show digitVal a = a.toNat - 48 from rfl, digitChar_recover a ha,
    show digitVal b = b.toNat - 48 from rfl, digitChar_recover b hb]

/-- Shape test for a ten-character year-month-day token. -/
def isShapeYMD (s : String) : Bool :=
  match s.data with
  | [a, b, c, d, s1, e, f, s2, g, h] =>
    a.isDigit && b.isDigit && c.isDigit && d.isDigit && (s1 == '-') &&
      e.isDigit && f.isDigit && (s2 == '-') && g.isDigit && h.isDigit
  | _ => false

/-- Digit characters of residues are digits. -/
theorem digitChar_mod_isDigit (n : Nat) : (Nat.digitChar (n % 10)).isDigit = true := by
  have h10 : n % 10 < 10 := Nat.mod_lt _ (by norm_num)
  interval_cases hn : n % 10 <;> decide

/-- Every formatted date has the year-month-day shape. -/
theorem fmtYMD_shape (ymd : Nat × Nat × Nat) : isShapeYMD (fmtYMD ymd) = true := by
  obtain ⟨y, m, d⟩ := ymd
  show isShapeYMD ⟨(pad4 y).data ++ '-' :: (pad2 m).data ++ '-' :: (pad2 d).data⟩ = true
  simp [isShapeYMD, pad4, pad2, digitChar_mod_isDigit]

/-- Either outcome of a branch of the normalizer is shaped or the
original token. -/
theorem fmtOrTok_dichotomy (o : Option (Nat × Nat × Nat)) (tok : String) :
    isShapeYMD (fmtOrTok o tok) = true ∨ fmtOrTok o tok = tok := by
  rcases o with _ | ymd
  · right; rfl
  · left; exact fmtYMD_shape ymd

/-- The dashed ten-character shape does not prefix-match the first
slashed date shape. -/
theorem shape1_no_dash (a b c d e f g h : Char) (ha : a.isDigit = true)
    (hb : b.isDigit = true) (hc : c.isDigit = true) (hd : d.isDigit = true) :
    matchPrefixRe dateShape1 [a, b, c, d, '-', e, f, '-', g, h] = false := by
  simp [matchPrefixRe, dateShape1, reCat, reD, chS, mres, runLen, repCounts,
    ha, hb, hc, hd, digit_ne_dash, digit_ne_slash]

/-- The dashed ten-character shape does not prefix-match the second
slashed date shape. -/
theorem shape2_no_dash (a b c d e f g h : Char) (ha : a.isDigit = true)
    (hb : b.isDigit = true) (hc : c.isDigit = true) (hd : d.isDigit = true) :
    matchPrefixRe dateShape2 [a, b, c, d, '-', e, f, '-', g, h] = false := by
  simp [matchPrefixRe, dateShape2, reCat, reD, chS, mres, runLen, repCounts,
    ha, hb, hc, hd, digit_ne_slash]
  intro k hk
  interval_cases k <;> simp [digit_ne_slash, hb, hc]

/-- The dashed ten-character shape does not prefix-match the short
slashed date shape. -/
theorem shape3_no_dash (a b c d e f g h : Char) (ha : a.isDigit = true)
    (hb : b.isDigit = true) (hc : c.isDigit = true) (hd : d.isDigit = true) :
    matchPrefixRe dateShape3 [a, b, c, d, '-', e, f, '-', g, h] = false := by
  simp [matchPrefixRe, dateShape3, reCat, reD, chS, mres, runLen, repCounts,
    ha, hb, hc, hd, digit_ne_slash]
  intro k hk
  interval_cases k <;> simp [digit_ne_slash, hb, hc]

/-- The dashed ten-character shape does not prefix-match the day-first
dashed shape, whose day field holds at most two digits. -/
theorem shape4_no_dash (a b c d e f g h : Char) (ha : a.isDigit = true)
    (hb : b.isDigit = true) (hc : c.isDigit = true) (hd : d.isDigit = true) :
    matchPrefixRe dateShape4 [a, b, c, d, '-', e, f, '-', g, h] = false := by
  simp [matchPrefixRe, dateShape4, reCat, reD, chS, mres, runLen, repCounts,
    ha, hb, hc, hd, digit_ne_dash]
  intro k hk
  interval_cases k <;> simp [digit_ne_dash, hb, hc]

/-- Splitting the shaped token at dashes yields its three fields. -/
theorem splitCh_shape (a b c d e f g h : Char) (ha : a.isDigit = true)
    (hb : b.isDigit = true) (hc : c.isDigit = true) (hd : d.isDigit = true)
    (he : e.isDigit = true) (hf : f.isDigit = true) (hg : g.isDigit = true)
    (hh : h.isDigit = true) :
    splitCh '-' [a, b, c, d, '-', e, f, '-', g, h] = [[a, b, c, d], [e, f], [g, h]] := by
  simp [splitCh, digit_beq_dash, ha, hb, hc, hd, he, hf, hg, hh]

/-- C6: the Date Normalizer always returns either a token in year-month-day
shape or the original token unchanged; a token already in that shape is
returned unchanged; in particular the invalid calendar date of February 31
is returned unchanged. -/
theorem C6_date_normalizer_shape_or_identity :
    (∀ (year : Nat) (tok ctx : String),
      isShapeYMD (parse_date year tok ctx) = true ∨ parse_date year tok ctx = tok) ∧
    (∀ (year : Nat) (tok ctx : String),
      isShapeYMD tok = true → parse_date year tok ctx = tok) ∧
    parse_date 2024 "31/02/2024" "" = "31/02/2024" := by
  refine ⟨?_, ?_, by decide⟩
  · intro year tok ctx
    simp only [parse_date]
    split
    · exact fmtOrTok_dichotomy _ _
    · split
      · exact fmtOrTok_dichotomy _ _
      · split
        · exact fmtOrTok_dichotomy _ _
        · split
          · exact fmtOrTok_dichotomy _ _
          · split
            · exact fmtOrTok_dichotomy _ _
            · right; rfl
  · intro year tok ctx hshape
    obtain ⟨l⟩ := tok
    rcases l with _ | ⟨a, _ | ⟨b, _ | ⟨c, _ | ⟨d, _ | ⟨s1, _ | ⟨e, _ | ⟨f,
      _ | ⟨s2, _ | ⟨g, _ | ⟨h, _ | ⟨x, rest⟩⟩⟩⟩⟩⟩⟩⟩⟩⟩⟩ <;>
      simp [isShapeYMD] at hshape
    obtain ⟨⟨⟨⟨⟨⟨⟨⟨⟨ha, hb⟩, hc⟩, hd⟩, hs1⟩, he⟩, hf⟩, hs2⟩, hg⟩, hh⟩ := hshape
    subst hs1
    subst hs2
    simp only [parse_date, String.data,
      shape1_no_dash a b c d e f g h ha hb hc hd,
      shape2_no_dash a b c d e f g h ha hb hc hd,
      shape3_no_dash a b c d e f g h ha hb hc hd,
      shape4_no_dash a b c d e f g h ha hb hc hd,
      Bool.false_eq_true, if_false]
    split
    · have hstrp : strpYMD ⟨[a, b, c, d, '-', e, f, '-', g, h]⟩
          = if validYMD (natOfDigits [a, b, c, d]) (natOfDigits [e, f])
                (natOfDigits [g, h]) = true
            then some (natOfDigits [a, b, c, d], natOfDigits [e, f],
              natOfDigits [g, h])
            else none := by
        simp [strpYMD, threeFields,
          splitCh_shape a b c d e f g h ha hb hc hd he hf hg hh,
          fieldNat, digitField, ha, hb, hc, hd, he, hf, hg, hh]
      rw [hstrp]
      by_cases hv : validYMD (natOfDigits [a, b, c, d]) (natOfDigits [e, f])
          (natOfDigits [g, h]) = true
      · rw [if_pos hv]
        have hdata : (fmtYMD (natOfDigits [a, b, c, d], natOfDigits [e, f],
            natOfDigits [g, h])).data = [a, b, c, d, '-', e, f, '-', g, h] := by
          simp [fmtYMD, pad4_recover a b c d ha hb hc hd,
            pad2_recover e f he hf, pad2_recover g h hg hh]
        have : fmtOrTok (some (natOfDigits [a, b, c, d], natOfDigits [e, f],
            natOfDigits [g, h])) ⟨[a, b, c, d, '-', e, f, '-', g, h]⟩
            = fmtYMD (natOfDigits [a, b, c, d], natOfDigits [e, f],
              natOfDigits [g, h]) := rfl
        rw [this]
        cases hfmt : fmtYMD (natOfDigits [a, b, c, d], natOfDigits [e, f],
          natOfDigits [g, h]) with
        | mk l => rw [hfmt] at hdata; simpa using congrArg String.mk hdata
      · rw [if_neg hv]
        rfl
    · rfl

/-- Witness for C6: the canonical token "2024-05-01" round-trips
unchanged. -/
theorem C6_date_normalizer_shape_or_identity_witness :
    parse_date 2024 "2024-05-01" "" = "2024-05-01" :=
  C6_date_normalizer_shape_or_identity.2.1 2024 "2024-05-01" "" (by decide)

/-- C8: the Date Normalizer tries its formats in the fixed source order:
the two-two-four slashed shape is parsed day first, other slashed shapes
with a four-digit year are parsed month first, a slashed shape without a
year is parsed month-day with the year taken from the first four-digit
number of the first two hundred context characters (defaulting to the
current year), then the dashed day-first shape, then year-month-day. -/
theorem C8_date_format_order :
    ∀ (year : Nat) (tok ctx : String),
      (matchPrefixRe dateShape1 tok.data = true →
        parse_date year tok ctx = fmtOrTok (strpDMY '/' tok) tok) ∧
      (matchPrefixRe dateShape1 tok.data = false →
        matchPrefixRe dateShape2 tok.data = true →
        parse_date year tok ctx = fmtOrTok (strpMDY tok) tok) ∧
      (matchPrefixRe dateShape1 tok.data = false →
        matchPrefixRe dateShape2 tok.data = false →
        matchPrefixRe dateShape3 tok.data = true →
        parse_date year tok ctx
          = fmtOrTok (strpMDY (tok ++ "/" ++ toString (yearFromCtx year ctx))) tok) ∧
      (matchPrefixRe dateShape1 tok.data = false →
        matchPrefixRe dateShape2 tok.data = false →
        matchPrefixRe dateShape3 tok.data = false →
        matchPrefixRe dateShape4 tok.data = true →
        parse_date year tok ctx = fmtOrTok (strpDMY '-' tok) tok) ∧
      (matchPrefixRe dateShape1 tok.data = false →
        matchPrefixRe dateShape2 tok.data = false →
        matchPrefixRe dateShape3 tok.data = false →
        matchPrefixRe dateShape4 tok.data = false →
        matchPrefixRe dateShape5 tok.data = true →
        parse_date year tok ctx = fmtOrTok (strpYMD tok) tok) ∧
      (matchPrefixRe dateShape1 tok.data = false →
        matchPrefixRe dateShape2 tok.data = false →
        matchPrefixRe dateShape3 tok.data = false →
        matchPrefixRe dateShape4 tok.data = false →
        matchPrefixRe dateShape5 tok.data = false →
        parse_date year tok ctx = tok) := by
  intro year tok ctx
  refine ⟨?_, ?_, ?_, ?_, ?_, ?_⟩
  · intro h1
    simp [parse_date, h1]
  · intro h1 h2
    simp [parse_date, h1, h2]
  · intro h1 h2 h3
    simp [parse_date, h1, h2, h3]
  · intro h1 h2 h3 h4
    simp [parse_date, h1, h2, h3, h4]
  · intro h1 h2 h3 h4 h5
    simp [parse_date, h1, h2, h3, h4, h5]
  · intro h1 h2 h3 h4 h5
    simp [parse_date, h1, h2, h3, h4, h5]

/-- Witness for C8: the ambiguous token "03/04/2024" takes the day-first
branch and normalizes to April the third. -/
theorem C8_date_format_order_witness :
    parse_date 2024 "03/04/2024" "" = fmtOrTok (strpDMY '/' "03/04/2024") "03/04/2024"
      ∧ parse_date 2024 "03/04/2024" "" = "2024-04-03" := by
  constructor
  · exact (C8_date_format_order 2024 "03/04/2024" "").1 (by decide)
  · decide

/-! ### Direction Classifier properties -/

/-- A prefix through a longer needle is a prefix through its left part. -/
theorem hasPrefixC_append (x : List Char) :
    ∀ (y m : List Char), hasPrefixC (x ++ y) m = true → hasPrefixC x m = true := by
  induction x with
  | nil => intro y m _; rfl
  | cons a x ih =>
    intro y m h
    cases m with
    | nil => simp [hasPrefixC] at h
    | cons b m =>
      simp only [List.cons_append, hasPrefixC, Bool.and_eq_true] at h ⊢
      exact ⟨h.1, ih y m h.2⟩

/-- An occurrence of a longer needle contains an occurrence of its left
part. -/
theorem hasInfixC_append (x y : List Char) :
    ∀ h : List Char, hasInfixC (x ++ y) h = true → hasInfixC x h = true := by
  intro h
  induction h with
  | nil =>
    intro hp
    exact hasPrefixC_append x y [] hp
  | cons c t ih =>
    intro hp
    simp only [hasInfixC, Bool.or_eq_true] at hp ⊢
    rcases hp with hp | hp
    · exact Or.inl (hasPrefixC_append x y (c :: t) hp)
    · exact Or.inr (ih hp)

/-- C7 counterexample: on the line "deposit -5" the utils.py Direction
Classifier answers Debit (its sign rule fires before any deposit rule,
which it lacks), while the priority order stated by the claim answers
Credit; the parser.py classifier follows the claimed order. -/
theorem C7_counterexample_deposit_minus :
    determine_transaction_direction "deposit -5" false false = "Debit" ∧
    claimedDirectionOrder "deposit -5" false false = "Credit" ∧
    parser_determine_transaction_direction "deposit -5" false false = "Credit" := by
  refine ⟨by decide, by decide, by decide⟩

/-- C7 amended: the parser.py Direction Classifier decides exactly by the
claimed priority order: section flags, deposit phrases, explicit CR or DR
or sign cues, credit keywords before debit keywords, secondary expense
keywords, default Debit. -/
theorem C7_parser_direction_priority :
    ∀ (t : String) (cs ds : Bool),
      parser_determine_transaction_direction t cs ds
        = claimedDirectionOrder t cs ds := by
  intro t cs ds
  cases cs with
  | true => rfl
  | false =>
    cases ds with
    | true => rfl
    | false =>
      simp only [parser_determine_transaction_direction, claimedDirectionOrder,
        if_false, Bool.false_eq_true]
      by_cases hsp : hasInfixS "deposit made in a branch/store" (lowerS t) = true
      · have hdep : hasInfixS "deposit" (lowerS t) = true := by
          have hsp2 := hsp
          simp only [hasInfixS] at hsp2 ⊢
          exact hasInfixC_append "deposit".data " made in a branch/store".data
            (lowerS t).data hsp2
        have hany : depositTerms.any (fun k => hasInfixS k (lowerS t)) = true := by
          simp [depositTerms, hdep]
        rw [if_pos hsp, if_pos hany]
      · rw [if_neg hsp]

/-! ### Pattern extraction properties -/

/-- C5 counterexample: the single line "1/2 A CR 3.00" matches three of
the transaction patterns and the extraction therefore emits three
transactions from this one line, not at most one. -/
theorem C5_counterexample_one_line_three_transactions :
    (extract_pattern_transactions 2024 "1/2 A CR 3.00").length = 3 ∧
    (splitCh '\n' ("1/2 A CR 3.00").data).map List.asString = ["1/2 A CR 3.00"] := by
  exact ⟨by decide, by decide⟩

/-- C5 amended: the extraction walks the text line by line threading the
section state; every pattern in the ordered list that matches a line with
a convertible amount contributes one transaction, so one line contributes
up to five transactions (one per pattern); in the four-group dispatch
without a post date, a captured indicator equal to Credit or CR forces
Credit, Debit or DR forces Debit, and any other indicator delegates to the
Direction Classifier with the current section state. -/
theorem C5_pattern_extraction_all_patterns :
    (∀ (year : Nat) (text : String),
      extract_pattern_transactions year text
        = patGo year text false false ((splitCh '\n' text.data).map List.asString)) ∧
    (∀ (year : Nat) (ctx : String) (cs ds : Bool) (line : String),
      (processPatternLine year ctx cs ds line).length ≤ transactionPatterns.length) ∧
    transactionPatterns.length = 5 ∧
    (∀ (cs ds : Bool) (caps : Caps) (g0 dateStr : String),
      (truthyS (capStr caps 2) = true →
        matchPrefixRe postDateShape ((capStr caps 2).getD "").data = false) →
      (((capStr caps 3).getD "" = "Credit" ∨ (capStr caps 3).getD "" = "CR") →
        txnParts cs ds 4 caps g0 dateStr
          = some (descOf (capStr caps 2), (capStr caps 4).getD "", "Credit")) ∧
      (((capStr caps 3).getD "" = "Debit" ∨ (capStr caps 3).getD "" = "DR") →
        txnParts cs ds 4 caps g0 dateStr
          = some (descOf (capStr caps 2), (capStr caps 4).getD "", "Debit")) ∧
      ((capStr caps 3).getD "" ≠ "Credit" → (capStr caps 3).getD "" ≠ "CR" →
        (capStr caps 3).getD "" ≠ "Debit" → (capStr caps 3).getD "" ≠ "DR" →
        txnParts cs ds 4 caps g0 dateStr
          = some (descOf (capStr caps 2), (capStr caps 4).getD "",
              parser_determine_transaction_direction g0 cs ds))) := by
  refine ⟨fun year text => rfl, ?_, rfl, ?_⟩
  · intro year ctx cs ds line
    exact List.length_filterMap_le _ _
  · intro cs ds caps g0 dateStr hpost
    have hcond : (truthyS (capStr caps 2)
        && matchPrefixRe postDateShape ((capStr caps 2).getD "").data) = false := by
      cases ht : truthyS (capStr caps 2) with
      | false => simp
      | true => simp [hpost ht]
    refine ⟨?_, ?_, ?_⟩
    · intro hind
      rcases hind with hind | hind <;>
        simp [txnParts, hcond, hind]
    · intro hind
      rcases hind with hind | hind <;>
        simp [txnParts, hcond, hind]
    · intro h1 h2 h3 h4
      simp [txnParts, hcond, h1, h2, h3, h4]

/-- Witness for the C5 amended theorem at a concrete capture environment
with indicator CR. -/
theorem C5_pattern_extraction_all_patterns_witness :
    txnParts false false 4 [(2, ['A']), (3, ['C', 'R']), (4, ['3', '.', '0', '0'])]
      "1/2 A CR 3.00" "1/2"
      = some (descOf (capStr [(2, ['A']), (3, ['C', 'R']), (4, ['3', '.', '0', '0'])] 2),
          (capStr [(2, ['A']), (3, ['C', 'R']), (4, ['3', '.', '0', '0'])] 4).getD "",
          "Credit") :=
  ((C5_pattern_extraction_all_patterns.2.2.2 false false
      [(2, ['A']), (3, ['C', 'R']), (4, ['3', '.', '0', '0'])]
      "1/2 A CR 3.00" "1/2") (by decide)).1 (Or.inr (by decide))

/-! ### Transaction field invariants -/

/-- The parser.py Direction Classifier only ever answers Credit or
Debit. -/
theorem parser_direction_pair (t : String) (cs ds : Bool) :
    parser_determine_transaction_direction t cs ds = "Credit" ∨
    parser_determine_transaction_direction t cs ds = "Debit" := by
  unfold parser_determine_transaction_direction
  dsimp only
  split_ifs <;> simp

/-- The AI direction coercion only ever answers Credit or Debit. -/
theorem ai_direction_pair (t : AITxn) :
    aiDirection t = "Credit" ∨ aiDirection t = "Debit" := by
  unfold aiDirection
  dsimp only
  split_ifs <;> simp

/-- The unsigned float parse yields a non-negative value. -/
theorem parseUnsigned_nonneg (s : List Char) (q : ℚ)
    (h : parseUnsigned s = some q) : 0 ≤ q := by
  simp only [parseUnsigned] at h
  split at h
  · split at h
    · exact absurd h (by simp)
    · have hq : ((natOfDigits (s.takeWhile Char.isDigit) : ℚ)) = q := by
        simpa using h
      rw [← hq]
      positivity
  · rename_i frac heq
    split at h
    · have hq : ((natOfDigits (s.takeWhile Char.isDigit) : ℚ) + fracOfDigits frac)
          = q := by
        simpa using h
      have h2 : (0 : ℚ) ≤ fracOfDigits frac := by
        unfold fracOfDigits
        positivity
      have h1 : (0 : ℚ) ≤ (natOfDigits (s.takeWhile Char.isDigit) : ℚ) := by
        positivity
      linarith [hq]
    · exact absurd h (by simp)
  · exact absurd h (by simp)

/-- Without a minus sign the float parse yields a non-negative value. -/
theorem parsePyFloat_nonneg (l : List Char) (q : ℚ) (hnd : '-' ∉ l)
    (h : parsePyFloat l = some q) : 0 ≤ q := by
  unfold parsePyFloat at h
  split at h
  · exact absurd (by simp) hnd
  · exact parseUnsigned_nonneg _ _ h
  · exact parseUnsigned_nonneg _ _ h

/-- Without a minus sign the defaulted float parse is non-negative. -/
theorem parsePyFloat_getD_nonneg (l : List Char) (hnd : '-' ∉ l) :
    0 ≤ (parsePyFloat l).getD 0 := by
  cases heq : parsePyFloat l with
  | none => simp
  | some q => simpa [heq] using parsePyFloat_nonneg l q hnd heq

/-- The cleaned amount string never contains a minus sign. -/
theorem cleanAmount_no_dash (s : String) : '-' ∉ cleanAmount s := by
  intro hmem
  simp [cleanAmount] at hmem

/-- The chosen direction of the group dispatch is Credit or Debit. -/
theorem txnParts_dir (cs ds : Bool) (ng : Nat) (caps : Caps)
    (g0 dateStr desc amtStr dir : String)
    (h : txnParts cs ds ng caps g0 dateStr = some (desc, amtStr, dir)) :
    dir = "Credit" ∨ dir = "Debit" := by
  simp only [txnParts] at h
  split at h
  · exact absurd h (by simp)
  · split at h
    · split at h
      · have h3 : parser_determine_transaction_direction g0 cs ds = dir :=
          congrArg (fun x => x.2.2) (Option.some.inj h)
        rw [← h3]
        exact parser_direction_pair _ _ _
      · have h3 : _ = dir := congrArg (fun x => x.2.2) (Option.some.inj h)
        rw [← h3]
        split_ifs <;> simp [parser_direction_pair]
    · split at h
      · have h3 : parser_determine_transaction_direction g0 cs ds = dir :=
          congrArg (fun x => x.2.2) (Option.some.inj h)
        rw [← h3]
        exact parser_direction_pair _ _ _
      · have h3 : parser_determine_transaction_direction g0 cs ds = dir :=
          congrArg (fun x => x.2.2) (Option.some.inj h)
        rw [← h3]
        exact parser_direction_pair _ _ _

/-- Every transaction a pattern match builds carries a non-negative
amount and a Credit-or-Debit direction. -/
theorem buildTxn_props (year : Nat) (ctx : String) (cs ds : Bool) (ng : Nat)
    (caps : Caps) (g0 : String) (t : Txn)
    (h : buildTxn year ctx cs ds ng caps g0 = some t) :
    (∃ q, t.amount = some q ∧ 0 ≤ q) ∧
    (t.direction = some "Credit" ∨ t.direction = some "Debit") := by
  simp only [buildTxn] at h
  split at h
  · exact absurd h (by simp)
  · rename_i desc amtStr dir heqParts
    split at h
    · exact absurd h (by simp)
    · rename_i amt heqAmt
      obtain rfl := Option.some.inj h
      constructor
      · exact ⟨amt, rfl, parsePyFloat_nonneg _ _ (cleanAmount_no_dash _) heqAmt⟩
      · rcases txnParts_dir cs ds ng caps g0 _ desc amtStr dir heqParts with hd | hd <;>
          simp [hd]

/-- Characters within the maximal run satisfy the class. -/
theorem take_runLen (p : Char → Bool) :
    ∀ (s : List Char) (c : Char), c ∈ s.take (runLen p s) → p c = true := by
  intro s
  induction s with
  | nil => intro c hc; simp at hc
  | cons a t ih =>
    intro c hc
    by_cases hp : p a = true
    · rw [runLen, if_pos hp] at hc
      simp only [List.take_succ_cons, List.mem_cons] at hc
      rcases hc with rfl | hc
      · exact hp
      · exact ih c hc
    · rw [runLen, if_neg hp] at hc
      simp at hc

/-- The amount substring scanned at one position holds no minus sign. -/
theorem amtAt_no_dash (s g1 : List Char) (h : amtAt s = some g1) : '-' ∉ g1 := by
  simp only [amtAt] at h
  split at h
  · rename_i hk
    split at h
    · rename_i d1 d2 rest hdrop
      split at h
      · rename_i hdig
        obtain rfl := Option.some.inj h
        intro hmem
        rw [show runLen isDigitComma s + 3 = runLen isDigitComma s + 3 from rfl,
          List.take_add] at hmem
        rcases List.mem_append.mp hmem with hmem | hmem
        · have := take_runLen isDigitComma s '-' hmem
          simp [isDigitComma] at this
        · rw [hdrop] at hmem
          simp only [List.take_succ_cons, List.take, List.mem_cons] at hmem
          rcases hmem with h1 | h1 | h1 | h1
          · exact absurd h1 (by decide)
          · subst h1
            simp [Bool.and_eq_true] at hdig
          · subst h1
            simp [Bool.and_eq_true] at hdig
          · simp at h1
      · exact absurd h (by simp)
    · exact absurd h (by simp)
  · exact absurd h (by simp)

/-- The first-position amount search yields a capture without a minus
sign. -/
theorem findAmount_no_dash :
    ∀ (s g0 g1 : List Char), findAmount s = some (g0, g1) → '-' ∉ g1 := by
  intro s
  induction s with
  | nil => intro g0 g1 h; simp [findAmount] at h
  | cons c t ih =>
    intro g0 g1 h
    simp only [findAmount] at h
    split at h
    · split at h
      · rename_i ga hga
        have hinj := Option.some.inj h
        rw [Prod.mk.injEq] at hinj
        obtain ⟨rfl, rfl⟩ := hinj
        exact amtAt_no_dash t ga hga
      · exact ih g0 g1 h
    · split at h
      · rename_i ga hga
        have hinj := Option.some.inj h
        rw [Prod.mk.injEq] at hinj
        obtain ⟨rfl, rfl⟩ := hinj
        exact amtAt_no_dash (c :: t) ga hga
      · exact ih g0 g1 h

/-- Every transaction of the line loop comes from some line's pattern
pass. -/
theorem patGo_mem (year : Nat) (ctx : String) :
    ∀ (lines : List String) (cs ds : Bool) (t : Txn),
      t ∈ patGo year ctx cs ds lines →
      ∃ (cs2 ds2 : Bool) (line : String),
        t ∈ processPatternLine year ctx cs2 ds2 line := by
  intro lines
  induction lines with
  | nil => intro cs ds t ht; simp [patGo] at ht
  | cons line rest ih =>
    intro cs ds t ht
    simp only [patGo] at ht
    split at ht
    · exact ih true false t ht
    · split at ht
      · exact ih false true t ht
      · rcases List.mem_append.mp ht with hm | hm
        · exact ⟨cs, ds, line, hm⟩
        · exact ih cs ds t hm

/-- Every transaction a table line yields carries a non-negative amount
and a Credit-or-Debit direction. -/
theorem tableLineTxn_props (year : Nat) (ctx line : String) (t : Txn)
    (h : tableLineTxn year ctx line = some t) :
    (∃ q, t.amount = some q ∧ 0 ≤ q) ∧
    (t.direction = some "Credit" ∨ t.direction = some "Debit") := by
  simp only [tableLineTxn] at h
  split at h
  · exact absurd h (by simp)
  · split at h
    · exact absurd h (by simp)
    · split at h
      · exact absurd h (by simp)
      · split at h
        · exact absurd h (by simp)
        · rename_i caps dateEnd heqCaps g0 g1 heqAmt
          obtain rfl := Option.some.inj h
          constructor
          · refine ⟨_, rfl, ?_⟩
            apply parsePyFloat_getD_nonneg
            intro hmem
            exact findAmount_no_dash line.data g0 g1 heqAmt
              (List.mem_of_mem_filter hmem)
          · rcases parser_direction_pair line false false with hd | hd <;>
              simp [hd]

/-! ### Bank-specific extraction: parse_wells_fargo_statement (utils.py) -/

/-- The Wells Fargo transaction pattern of the source, a short slashed
date capture, whitespace, a lazy non-newline description capture,
whitespace, and the comma-tolerant decimal amount capture. -/
def wfTxnRe : Re :=
  reCat
    [.grp 1 (reCat [reD 1 (some 2), chS '/', reD 1 (some 2)]),
     reSp, .grp 2 (.rep false (fun c => !(c == '\n')) 1 none), reSp, amtG2 3]

/-- The Wells Fargo starting-balance pattern: the literal Beginning
balance phrase, a slashed date, whitespace, a dollar sign and the amount
capture. -/
def wfStartRe : Re :=
  reCat [litS "Beginning balance on ", reD 1 none, chS '/', reD 1 none,
    reSp, chS '$', amtG 1]

/-- The Wells Fargo ending-balance pattern: the literal Ending balance
phrase, a slashed date, whitespace, a dollar sign and the amount
capture. -/
def wfEndRe : Re :=
  reCat [litS "Ending balance on ", reD 1 none, chS '/', reD 1 none,
    reSp, chS '$', amtG 1]

/-- Balance from a Wells Fargo balance pattern: the first match's capture
with commas removed, converted by `float`; the capture shape always
converts, so the default is never taken. -/
def wfBalance (r : Re) (text : String) : Option ℚ :=
  (reSearchG0 r text.data).map (fun pr =>
    (parsePyFloat (((capGet pr.1 1).getD []).filter (fun c => !(c == ',')))).getD 0)

/-- One line of the Wells Fargo transaction loop: the first match of the
transaction pattern; the description is stripped, the amount is the
capture without commas through `float`, the direction is literally Credit
in the credit section and Debit otherwise, and the date goes through the
month-first parse with the context year appended (the captured date
always has two fields), degrading to the captured text. -/
def wfLineTxn (year : Nat) (ctx : String) (cs : Bool) (line : String) :
    Option Txn :=
  match reSearchG0 wfTxnRe line.data with
  | none => none
  | some pr =>
    let caps := pr.1
    let dateStr := ((capGet caps 1).getD []).asString
    let description := trimC ((capGet caps 2).getD []).asString
    let amount :=
      (parsePyFloat (((capGet caps 3).getD []).filter (fun c => !(c == ',')))).getD 0
    let direction := if cs then "Credit" else "Debit"
    let fdate :=
      if 2 < (splitCh '/' dateStr.data).length then
        fmtOrTok (strpMDY dateStr) dateStr
      else
        fmtOrTok
          (strpMDY (dateStr ++ "/" ++ toString (yearFromCtx year ctx))) dateStr
    some ⟨some fdate, some description, some direction, some amount⟩

/-- Line loop of `parse_wells_fargo_statement`, threading the section
flags set by the Deposits and Withdrawals header lines, which contribute
nothing themselves. -/
def wfGo (year : Nat) (ctx : String) : Bool → Bool → List String → List Txn
  | _, _, [] => []
  | cs, ds, line :: rest =>
    if hasInfixS "Deposits and other credits" line then
      wfGo year ctx true false rest
    else if hasInfixS "Withdrawals and other debits" line then
      wfGo year ctx false true rest
    else (wfLineTxn year ctx cs line).toList ++ wfGo year ctx cs ds rest

/-- The bank-specific parse `parse_wells_fargo_statement` (utils.py). -/
def parse_wells_fargo_statement (year : Nat) (text : String) : Statement :=
  let sb := wfBalance wfStartRe text
  let eb := wfBalance wfEndRe text
  let ts := wfGo year text false false ((splitCh '\n' text.data).map List.asString)
  { starting_balance := sb
    ending_balance := eb
    transactions := ts
    validation := validate_transactions sb eb ts
    parsing_method := none
    error := none }

/-- Every character class of a regex implies the predicate. -/
def reClassesP (P : Char → Bool) : Re → Prop
  | .eps => True
  | .cls p => ∀ c, p c = true → P c = true
  | .seq a b => reClassesP P a ∧ reClassesP P b
  | .alt a b => reClassesP P a ∧ reClassesP P b
  | .grp _ r => reClassesP P r
  | .rep _ p _ _ => ∀ c, p c = true → P c = true

/-- Every subregex captured under the given group index has all its
character classes implying the predicate. -/
def grpOK (P : Char → Bool) (n : Nat) : Re → Prop
  | .eps => True
  | .cls _ => True
  | .seq a b => grpOK P n a ∧ grpOK P n b
  | .alt a b => grpOK P n a ∧ grpOK P n b
  | .grp m r => (m = n → reClassesP P r) ∧ grpOK P n r
  | .rep _ _ _ _ => True

/-- A repetition consumes at most the maximal run length. -/
theorem repCounts_le (g : Bool) (lo : Nat) (hi : Option Nat) (m k : Nat)
    (h : k ∈ repCounts g lo hi m) : k ≤ m := by
  cases hi with
  | none =>
    simp only [repCounts] at h
    split at h
    · simp only [List.mem_map, List.mem_range] at h
      obtain ⟨x, hx, hk⟩ := h
      cases g <;> simp at hk <;> omega
    · simp at h
  | some hh =>
    simp only [repCounts] at h
    split at h
    · simp only [List.mem_map, List.mem_range] at h
      obtain ⟨x, hx, hk⟩ := h
      cases g <;> simp at hk <;> omega
    · simp at h

/-- Every outcome of the matcher consumes a prefix of the input whose
characters all satisfy any predicate the regex's classes imply. -/
theorem mres_classes (P : Char → Bool) :
    ∀ (r : Re), reClassesP P r → ∀ (s : List Char) (pr : Caps × List Char),
      pr ∈ mres r s →
      ∃ k, pr.2 = s.drop k ∧ ∀ c ∈ s.take k, P c = true := by
  intro r
  induction r with
  | eps =>
    intro _ s pr hm
    simp only [mres, List.mem_singleton] at hm
    subst hm
    exact ⟨0, rfl, by simp⟩
  | cls p =>
    intro hP s pr hm
    cases s with
    | nil => simp [mres] at hm
    | cons c t =>
      simp only [mres] at hm
      split at hm
      · rename_i hpc
        simp only [List.mem_singleton] at hm
        subst hm
        refine ⟨1, rfl, ?_⟩
        intro x hx
        simp only [List.take_succ_cons, List.take_zero, List.mem_singleton] at hx
        rw [hx]
        exact hP c hpc
      · simp at hm
  | seq a b iha ihb =>
    intro hP s pr hm
    obtain ⟨hPa, hPb⟩ := hP
    simp only [mres, List.mem_flatMap, List.mem_map] at hm
    obtain ⟨pa, hpa, pb, hpb, hpr⟩ := hm
    subst hpr
    obtain ⟨k1, hd1, ht1⟩ := iha hPa s pa hpa
    obtain ⟨k2, hd2, ht2⟩ := ihb hPb pa.2 pb hpb
    refine ⟨k1 + k2, ?_, ?_⟩
    · show pb.2 = s.drop (k1 + k2)
      rw [hd2, hd1, List.drop_drop, Nat.add_comm]
    · intro c hc
      rw [List.take_add] at hc
      rcases List.mem_append.mp hc with h1 | h1
      · exact ht1 c h1
      · rw [← hd1] at h1
        exact ht2 c h1
  | alt a b iha ihb =>
    intro hP s pr hm
    obtain ⟨hPa, hPb⟩ := hP
    simp only [mres] at hm
    rcases List.mem_append.mp hm with h1 | h1
    · exact iha hPa s pr h1
    · exact ihb hPb s pr h1
  | grp m r ih =>
    intro hP s pr hm
    simp only [mres, List.mem_map] at hm
    obtain ⟨pr2, hpr2, hpr⟩ := hm
    subst hpr
    exact ih hP s pr2 hpr2
  | rep g p lo hi =>
    intro hP s pr hm
    simp only [mres, List.mem_map] at hm
    obtain ⟨k, hk, hpr⟩ := hm
    subst hpr
    refine ⟨k, rfl, ?_⟩
    intro c hc
    have hkle : k ≤ runLen p s := repCounts_le g lo hi (runLen p s) k hk
    have hc2 : c ∈ s.take (runLen p s) := by
      have heq2 : (s.take (runLen p s)).take k = s.take k := by
        rw [List.take_take, Nat.min_eq_left hkle]
      rw [← heq2] at hc
      exact List.take_subset _ _ hc
    exact hP c (take_runLen p s c hc2)

/-- Captures under a group whose subregex classes imply a predicate hold
only characters satisfying it. -/
theorem mres_capture_classes (P : Char → Bool) (n : Nat) :
    ∀ (r : Re), grpOK P n r → ∀ (s : List Char) (pr : Caps × List Char),
      pr ∈ mres r s → ∀ l, (n, l) ∈ pr.1 → ∀ c ∈ l, P c = true := by
  intro r
  induction r with
  | eps =>
    intro _ s pr hm l hl
    simp only [mres, List.mem_singleton] at hm
    subst hm
    simp at hl
  | cls p =>
    intro _ s pr hm l hl
    cases s with
    | nil => simp [mres] at hm
    | cons c t =>
      simp only [mres] at hm
      split at hm
      · simp only [List.mem_singleton] at hm
        subst hm
        simp at hl
      · simp at hm
  | seq a b iha ihb =>
    intro hG s pr hm l hl
    obtain ⟨hGa, hGb⟩ := hG
    simp only [mres, List.mem_flatMap, List.mem_map] at hm
    obtain ⟨pa, hpa, pb, hpb, hpr⟩ := hm
    subst hpr
    rcases List.mem_append.mp hl with h1 | h1
    · exact ihb hGb pa.2 pb hpb l h1
    · exact iha hGa s pa hpa l h1
  | alt a b iha ihb =>
    intro hG s pr hm l hl
    obtain ⟨hGa, hGb⟩ := hG
    simp only [mres] at hm
    rcases List.mem_append.mp hm with h1 | h1
    · exact iha hGa s pr h1 l hl
    · exact ihb hGb s pr h1 l hl
  | grp m r ih =>
    intro hG s pr hm l hl
    obtain ⟨hGm, hGr⟩ := hG
    simp only [mres, List.mem_map] at hm
    obtain ⟨pr2, hpr2, hpr⟩ := hm
    subst hpr
    rcases List.mem_cons.mp hl with heq | htl
    · have hmn : m = n := (congrArg Prod.fst heq).symm
      have hcl : l = List.take (s.length - pr2.2.length) s := congrArg Prod.snd heq
      obtain ⟨k, hd, ht⟩ := mres_classes P r (hGm hmn) s pr2 hpr2
      have hml : s.take (s.length - pr2.2.length) = s.take k := by
        rw [hd, List.length_drop]
        rcases Nat.le_total k s.length with hk | hk
        · have h2 : s.length - (s.length - k) = k := by omega
          rw [h2]
        · have h2 : s.length - (s.length - k) = s.length := by omega
          rw [h2, List.take_length, List.take_of_length_le hk]
      intro c hc
      rw [hcl, hml] at hc
      exact ht c hc
    · exact ih hGr s pr2 hpr2 l htl
  | rep g p lo hi =>
    intro _ s pr hm l hl
    simp only [mres, List.mem_map] at hm
    obtain ⟨k, hk, hpr⟩ := hm
    subst hpr
    simp at hl

/-- A successful search's captures come from a matcher outcome on some
suffix of the input. -/
theorem searchAux_mres (r : Re) :
    ∀ (s : List Char) (i st : Nat) (caps : Caps) (len : Nat),
      searchAux r i s = some (st, caps, len) →
      ∃ (t : List Char) (pr : Caps × List Char), pr ∈ mres r t ∧ pr.1 = caps := by
  intro s
  induction s with
  | nil =>
    intro i st caps len h
    simp only [searchAux] at h
    split at h
    · rename_i pr rest heq
      refine ⟨[], pr, ?_, congrArg (fun x => x.2.1) (Option.some.inj h)⟩
      rw [heq]
      exact List.mem_cons_self pr rest
    · exact absurd h (by simp)
  | cons c t ih =>
    intro i st caps len h
    simp only [searchAux] at h
    split at h
    · rename_i pr rest heq
      refine ⟨c :: t, pr, ?_, congrArg (fun x => x.2.1) (Option.some.inj h)⟩
      rw [heq]
      exact List.mem_cons_self pr rest
    · exact ih (i + 1) st caps len h

/-- The captures of a successful group-0 search come from a matcher
outcome. -/
theorem reSearchG0_caps (r : Re) (s : List Char) (caps : Caps) (g0 : List Char)
    (h : reSearchG0 r s = some (caps, g0)) :
    ∃ (t : List Char) (pr : Caps × List Char), pr ∈ mres r t ∧ pr.1 = caps := by
  simp only [reSearchG0] at h
  cases hsa : searchAux r 0 s with
  | none => rw [hsa] at h; exact absurd h (by simp)
  | some v =>
    obtain ⟨st, cps, len⟩ := v
    rw [hsa] at h
    simp only [Option.map_some'] at h
    have hv := Option.some.inj h
    obtain ⟨t, pr, hm, hc⟩ := searchAux_mres r s 0 st cps len hsa
    refine ⟨t, pr, hm, ?_⟩
    rw [hc]
    exact congrArg Prod.fst hv

/-- A looked-up capture is an entry of the capture environment. -/
theorem capGet_mem (caps : Caps) (gi : Nat) (l : List Char)
    (h : capGet caps gi = some l) : (gi, l) ∈ caps := by
  simp only [capGet] at h
  cases hf : caps.find? (fun p => p.1 == gi) with
  | none => rw [hf] at h; exact absurd h (by simp)
  | some q =>
    obtain ⟨qa, qb⟩ := q
    rw [hf] at h
    simp only [Option.map_some'] at h
    have hq2 : qb = l := Option.some.inj h
    have hqm : (qa, qb) ∈ caps := List.mem_of_find?_eq_some hf
    have hq1 := List.find?_some hf
    simp at hq1
    subst hq1
    subst hq2
    exact hqm

/-- A digit is not a minus sign, as a boolean. -/
theorem digit_not_dash_b (c : Char) (h : c.isDigit = true) :
    (!(c == '-')) = true := by
  have h2 := digit_ne_dash c h
  simp only [Bool.not_eq_true', beq_eq_false_iff_ne, ne_eq, h2]
  exact not_false

/-- The classes of the amount capture body admit no minus sign. -/
theorem amtG2_body_classes :
    reClassesP (fun c => !(c == '-'))
      (reCat [reD 1 none, .rep true (fun c => c == ',') 0 (some 1),
        .rep true Char.isDigit 0 none, chS '.', reD 2 (some 2)]) := by
  simp only [reCat, List.foldr, reD, chS, reClassesP]
  refine ⟨?_, ?_, ?_, ?_, ?_, trivial⟩
  · exact fun c hc => digit_not_dash_b c hc
  · intro c hc
    have hc2 : c = ',' := by simpa using hc
    subst hc2
    decide
  · exact fun c hc => digit_not_dash_b c hc
  · intro c hc
    have hc2 : c = '.' := by simpa using hc
    subst hc2
    decide
  · exact fun c hc => digit_not_dash_b c hc

/-- Group three of the Wells Fargo transaction pattern, the amount
capture, admits no minus sign. -/
theorem wfTxnRe_grp3 : grpOK (fun c => !(c == '-')) 3 wfTxnRe := by
  simp only [wfTxnRe, amtG2, reCat, List.foldr, reD, reSp, chS, grpOK]
  repeat' apply And.intro
  all_goals first
    | trivial
    | (intro h3; exact absurd h3 (by decide))
    | (intro h3; exact amtG2_body_classes)

/-- Every transaction a Wells Fargo line yields carries a non-negative
amount and a Credit-or-Debit direction. -/
theorem wfLineTxn_props (year : Nat) (ctx : String) (cs : Bool) (line : String)
    (t : Txn) (h : wfLineTxn year ctx cs line = some t) :
    (∃ q, t.amount = some q ∧ 0 ≤ q) ∧
    (t.direction = some "Credit" ∨ t.direction = some "Debit") := by
  simp only [wfLineTxn] at h
  split at h
  · exact absurd h (by simp)
  · rename_i pr heq
    obtain rfl := Option.some.inj h
    constructor
    · refine ⟨_, rfl, ?_⟩
      apply parsePyFloat_getD_nonneg
      intro hmem
      have hmem2 := List.mem_of_mem_filter hmem
      cases hc3 : capGet pr.1 3 with
      | none => rw [hc3] at hmem2; simp at hmem2
      | some l =>
        rw [hc3] at hmem2
        simp only [Option.getD_some] at hmem2
        obtain ⟨tt, pr2, hm2, hcaps⟩ :=
          reSearchG0_caps wfTxnRe line.data pr.1 pr.2 (by rw [heq])
        have hnd := mres_capture_classes (fun c => !(c == '-')) 3 wfTxnRe
          wfTxnRe_grp3 tt pr2 hm2 l
          (by rw [hcaps]; exact capGet_mem pr.1 3 l hc3) '-' hmem2
        simp at hnd
    · cases cs with
      | true => left; rfl
      | false => right; rfl

/-- Every transaction of the Wells Fargo line loop comes from some line's
match. -/
theorem wfGo_mem (year : Nat) (ctx : String) :
    ∀ (lines : List String) (cs ds : Bool) (t : Txn),
      t ∈ wfGo year ctx cs ds lines →
      ∃ (cs2 : Bool) (line : String), wfLineTxn year ctx cs2 line = some t := by
  intro lines
  induction lines with
  | nil => intro cs ds t ht; simp [wfGo] at ht
  | cons line rest ih =>
    intro cs ds t ht
    simp only [wfGo] at ht
    split at ht
    · exact ih true false t ht
    · split at ht
      · exact ih false true t ht
      · rcases List.mem_append.mp ht with hm | hm
        · refine ⟨cs, line, ?_⟩
          cases ho : wfLineTxn year ctx cs line with
          | none => rw [ho] at hm; simp at hm
          | some u =>
            rw [ho] at hm
            simp at hm
            subst hm
            rfl
        · exact ih cs ds t hm

/-- C9 amended: every transaction of the pattern-based, table-aware and
bank-specific extraction paths has a non-negative amount and a direction
that is Credit or Debit; the AI standardization guarantees the direction
coercion but passes amounts through as parsed, without a sign check. -/
theorem C9_transaction_field_invariants :
    (∀ (year : Nat) (text : String) (t : Txn),
      t ∈ extract_pattern_transactions year text →
      (∃ q, t.amount = some q ∧ 0 ≤ q) ∧
      (t.direction = some "Credit" ∨ t.direction = some "Debit")) ∧
    (∀ (year : Nat) (text : String) (t : Txn),
      t ∈ extract_table_transactions year text →
      (∃ q, t.amount = some q ∧ 0 ≤ q) ∧
      (t.direction = some "Credit" ∨ t.direction = some "Debit")) ∧
    (∀ (year : Nat) (text : String) (t : Txn),
      t ∈ (parse_wells_fargo_statement year text).transactions →
      (∃ q, t.amount = some q ∧ 0 ≤ q) ∧
      (t.direction = some "Credit" ∨ t.direction = some "Debit")) ∧
    (∀ (d : AIData) (t : Txn),
      t ∈ (standardize_ai_response d).2.2 →
      (∃ q, t.amount = some q) ∧
      (t.direction = some "Credit" ∨ t.direction = some "Debit")) := by
  refine ⟨?_, ?_, ?_, ?_⟩
  · intro year text t ht
    obtain ⟨cs2, ds2, line, hm⟩ := patGo_mem year text _ false false t ht
    obtain ⟨pr, hpr, htry⟩ := List.mem_filterMap.mp hm
    simp only [tryPattern] at htry
    split at htry
    · exact absurd htry (by simp)
    · exact buildTxn_props _ _ _ _ _ _ _ _ htry
  · intro year text t ht
    obtain ⟨sec, hsec, hmem⟩ := List.mem_flatMap.mp ht
    obtain ⟨line, hline, hsome⟩ := List.mem_filterMap.mp hmem
    exact tableLineTxn_props year text line t hsome
  · intro year text t ht
    simp only [parse_wells_fargo_statement] at ht
    obtain ⟨cs2, line, hsome⟩ := wfGo_mem year text _ false false t ht
    exact wfLineTxn_props year text cs2 line t hsome
  · intro d t ht
    obtain ⟨a, ha, hsome⟩ := List.mem_filterMap.mp ht
    simp only [aiTxn] at hsome
    split at hsome
    · exact absurd hsome (by simp)
    · rename_i amt heqAmt
      obtain rfl := Option.some.inj hsome
      refine ⟨⟨amt, rfl⟩, ?_⟩
      rcases ai_direction_pair a with hd | hd <;> simp [hd]

/-- The AI response dict used by the C9 counterexample: one transaction
with a negative string amount and direction Credit. -/
def negAIData : AIData :=
  ⟨none, none, some [⟨none, none, some (.str "-50"), some "Credit", none⟩]⟩

/-- C9 counterexample: the AI standardization step passes a negative
amount through unchanged, so a produced Transaction violates the claimed
amount invariant. -/
theorem C9_counterexample_negative_ai_amount :
    (standardize_ai_response negAIData).2.2
      = [⟨none, some "", some "Credit", some (-50)⟩] ∧ ((-50 : ℚ) < 0) :=
  ⟨by decide, by norm_num⟩

/-- The AI response dict used by the C9 witness: one transaction with a
numeric amount. -/
def posAIData : AIData :=
  ⟨none, none, some [⟨none, none, some (.num 7), some "Credit", none⟩]⟩

/-- Witness for the C9 amended theorem at a concrete AI transaction. -/
theorem C9_transaction_field_invariants_witness :
    (⟨none, some "", some "Credit", some (7 : ℚ)⟩ : Txn).direction = some "Credit" ∨
    (⟨none, some "", some "Credit", some (7 : ℚ)⟩ : Txn).direction = some "Debit" :=
  (C9_transaction_field_invariants.2.2.2 posAIData
    ⟨none, some "", some "Credit", some 7⟩ (by decide)).2

/-! ### Highest-variance selection properties -/

/-- The variance of a statement as a highest-variance candidate: present
exactly when the validation carries a present non-zero expected balance
and a present calculated balance. -/
def candVar (s : Statement) : Option ℚ :=
  match s.validation.expected_ending_balance,
      s.validation.calculated_ending_balance with
  | some e, some c => if e = 0 then none else some (|(c - e) / e| * 100)
  | _, _ => none

/-- The record the loop stores for a candidate statement. -/
def recOf (i : Nat) (s : Statement) (v : ℚ) : HVRec :=
  ⟨i, (s.validation.expected_ending_balance).getD 0,
    (s.validation.calculated_ending_balance).getD 0, v⟩

/-- Candidate variances are non-negative. -/
theorem candVar_nonneg (s : Statement) (v : ℚ) (h : candVar s = some v) :
    0 ≤ v := by
  simp only [candVar] at h
  split at h
  · split at h
    · exact absurd h (by simp)
    · obtain rfl := Option.some.inj h
      positivity
  · exact absurd h (by simp)

/-- A candidate's fields are present and determine its variance. -/
theorem candVar_fields (s : Statement) (v : ℚ) (h : candVar s = some v) :
    ∃ e c, s.validation.expected_ending_balance = some e ∧
      s.validation.calculated_ending_balance = some c ∧
      e ≠ 0 ∧ v = |(c - e) / e| * 100 := by
  simp only [candVar] at h
  split at h
  · rename_i e c heq hcq
    split at h
    · exact absurd h (by simp)
    · rename_i hez
      refine ⟨e, c, heq, hcq, hez, ?_⟩
      simpa using h.symm
  · exact absurd h (by simp)

/-- A non-candidate statement leaves the loop state unchanged whenever the
step succeeds. -/
theorem hvStep_skip (i : Nat) (mv : ℚ) (b : Option HVRec) (s : Statement)
    (hc : candVar s = none) :
    ∀ st, hvStep i mv b s = .ok st → st = (mv, b) := by
  intro st h
  simp only [hvStep] at h
  split at h
  · exact (Except.ok.inj h).symm
  · rename_i e heq
    split at h
    · exact (Except.ok.inj h).symm
    · rename_i hez
      split at h
      · exact absurd h (by simp)
      · rename_i c hcq
        simp only [candVar, heq, hcq, if_neg hez] at hc
        exact absurd hc (by simp)

/-- A candidate statement updates the loop state exactly by the strict
running-maximum rule. -/
theorem hvStep_cand (i : Nat) (mv : ℚ) (b : Option HVRec) (s : Statement)
    (v : ℚ) (hc : candVar s = some v) :
    hvStep i mv b s
      = .ok (if mv < v then (v, some (recOf i s v)) else (mv, b)) := by
  obtain ⟨e, c, heq, hcq, hez, rfl⟩ := candVar_fields s v hc
  simp only [hvStep, heq, hcq, if_neg hez, recOf, Option.getD_some]
  split <;> rfl

/-- Invariant of the highest-variance loop: a successful run either keeps
the incoming best (when no later candidate beats the incoming maximum) or
returns the earliest candidate attaining the overall strict maximum. -/
theorem hvGo_spec :
    ∀ (l : List Statement) (i : Nat) (mv : ℚ) (b : Option HVRec)
      (hv : Option HVRec),
      hvGo i mv b l = .ok hv →
      ((hv = b ∧ ∀ (j : Nat) (hj : j < l.length) (w : ℚ),
          candVar (l.get ⟨j, hj⟩) = some w → w ≤ mv) ∨
        (∃ (j : Nat) (hj : j < l.length) (v : ℚ),
          candVar (l.get ⟨j, hj⟩) = some v ∧ mv < v ∧
          hv = some (recOf (i + j) (l.get ⟨j, hj⟩) v) ∧
          (∀ (k : Nat) (hk : k < l.length) (w : ℚ),
            candVar (l.get ⟨k, hk⟩) = some w → w ≤ v) ∧
          (∀ (k : Nat) (hk : k < l.length) (w : ℚ), k < j →
            candVar (l.get ⟨k, hk⟩) = some w → w < v))) := by
  intro l
  induction l with
  | nil =>
    intro i mv b hv h
    left
    refine ⟨(Except.ok.inj h).symm, ?_⟩
    intro j hj
    simp at hj
  | cons s rest ih =>
    intro i mv b hv h
    simp only [hvGo] at h
    rcases hstep : hvStep i mv b s with u | st
    · rw [hstep] at h; exact absurd h (by simp)
    · rw [hstep] at h
      rcases hcand : candVar s with _ | v
      · have hst := hvStep_skip i mv b s hcand st hstep
        subst hst
        rcases ih (i + 1) mv b hv h with ⟨rfl, hbound⟩ | ⟨j, hj, v, hcv, hlt, hrec, hub, hstrict⟩
        · left
          refine ⟨rfl, ?_⟩
          intro j hj w hw
          cases j with
          | zero => rw [List.get] at hw; rw [hcand] at hw; exact absurd hw (by simp)
          | succ j => exact hbound j (by simpa using hj) w (by simpa using hw)
        · right
          refine ⟨j + 1, by simpa using hj, v, by simpa using hcv, hlt, ?_, ?_, ?_⟩
          · rw [hrec]
            have harith : i + 1 + j = i + (j + 1) := by omega
            rw [harith]
            rfl
          · intro k hk w hw
            cases k with
            | zero => rw [List.get] at hw; rw [hcand] at hw; exact absurd hw (by simp)
            | succ k => exact hub k (by simpa using hk) w (by simpa using hw)
          · intro k hk w hklt hw
            cases k with
            | zero => rw [List.get] at hw; rw [hcand] at hw; exact absurd hw (by simp)
            | succ k =>
              exact hstrict k (by simpa using hk) w (by omega) (by simpa using hw)
      · have hse := hvStep_cand i mv b s v hcand
        rw [hstep] at hse
        have hst := Except.ok.inj hse
        by_cases hmv : mv < v
        · rw [if_pos hmv] at hst
          subst hst
          rcases ih (i + 1) v (some (recOf i s v)) hv h with
            ⟨rfl, hbound⟩ | ⟨j, hj, v2, hcv, hlt, hrec, hub, hstrict⟩
          · right
            refine ⟨0, by simp, v, by simpa using hcand, hmv, by simp, ?_, ?_⟩
            · intro k hk w hw
              cases k with
              | zero =>
                rw [List.get] at hw
                rw [hcand] at hw
                obtain rfl := Option.some.inj hw
                exact le_rfl
              | succ k => exact hbound k (by simpa using hk) w (by simpa using hw)
            · intro k hk w hklt hw
              omega
          · right
            refine ⟨j + 1, by simpa using hj, v2, by simpa using hcv,
              lt_trans hmv hlt, ?_, ?_, ?_⟩
            · rw [hrec]
              have harith : i + 1 + j = i + (j + 1) := by omega
              rw [harith]
              rfl
            · intro k hk w hw
              cases k with
              | zero =>
                rw [List.get] at hw
                rw [hcand] at hw
                obtain rfl := Option.some.inj hw
                exact le_of_lt hlt
              | succ k => exact hub k (by simpa using hk) w (by simpa using hw)
            · intro k hk w hklt hw
              cases k with
              | zero =>
                rw [List.get] at hw
                rw [hcand] at hw
                obtain rfl := Option.some.inj hw
                exact hlt
              | succ k =>
                exact hstrict k (by simpa using hk) w (by omega) (by simpa using hw)
        · rw [if_neg hmv] at hst
          subst hst
          have hvle : v ≤ mv := le_of_not_lt hmv
          rcases ih (i + 1) mv b hv h with
            ⟨rfl, hbound⟩ | ⟨j, hj, v2, hcv, hlt, hrec, hub, hstrict⟩
          · left
            refine ⟨rfl, ?_⟩
            intro j hj w hw
            cases j with
            | zero =>
              rw [List.get] at hw
              rw [hcand] at hw
              obtain rfl := Option.some.inj hw
              exact hvle
            | succ j => exact hbound j (by simpa using hj) w (by simpa using hw)
          · right
            refine ⟨j + 1, by simpa using hj, v2, by simpa using hcv, hlt, ?_, ?_, ?_⟩
            · rw [hrec]
              have harith : i + 1 + j = i + (j + 1) := by omega
              rw [harith]
              rfl
            · intro k hk w hw
              cases k with
              | zero =>
                rw [List.get] at hw
                rw [hcand] at hw
                obtain rfl := Option.some.inj hw
                exact le_of_lt (lt_of_le_of_lt hvle hlt)
              | succ k => exact hub k (by simpa using hk) w (by simpa using hw)
            · intro k hk w hklt hw
              cases k with
              | zero =>
                rw [List.get] at hw
                rw [hcand] at hw
                obtain rfl := Option.some.inj hw
                exact lt_of_le_of_lt hvle hlt
              | succ k =>
                exact hstrict k (by simpa using hk) w (by omega) (by simpa using hw)

/-- C3 amended: on a successful statistics run, highest_variance ranges
over the statements whose validation carries a present non-zero expected
ending balance (whether or not the verdict was is_valid): if nothing is
recorded every candidate's variance is zero, and a recorded statement is a
candidate whose strictly positive variance is the absolute relative
deviation times one hundred, is maximal among all candidates, and strictly
exceeds every earlier candidate's variance. -/
theorem C3_highest_variance_selection :
    ∀ (results : List Statement) (hv : Option HVRec),
      hvGo 0 0 none results = .ok hv →
      ((hv = none → ∀ (j : Nat) (hj : j < results.length) (w : ℚ),
          candVar (results.get ⟨j, hj⟩) = some w → w = 0) ∧
        (∀ rec, hv = some rec →
          ∃ hj : rec.index < results.length,
            candVar (results.get ⟨rec.index, hj⟩) = some rec.variance ∧
            0 < rec.variance ∧
            (results.get ⟨rec.index, hj⟩).validation.expected_ending_balance
              = some rec.expected ∧
            (results.get ⟨rec.index, hj⟩).validation.calculated_ending_balance
              = some rec.calculated ∧
            (∀ (k : Nat) (hk : k < results.length) (w : ℚ),
              candVar (results.get ⟨k, hk⟩) = some w → w ≤ rec.variance) ∧
            (∀ (k : Nat) (hk : k < results.length) (w : ℚ), k < rec.index →
              candVar (results.get ⟨k, hk⟩) = some w → w < rec.variance))) := by
  intro results hv h
  rcases hvGo_spec results 0 0 none hv h with
    ⟨rfl, hbound⟩ | ⟨j, hj, v, hcv, hpos, hrec, hub, hstrict⟩
  · constructor
    · intro _ j hj w hw
      have h1 := hbound j hj w hw
      have h2 := candVar_nonneg _ w hw
      linarith
    · intro rec hrec
      exact absurd hrec (by simp)
  · constructor
    · intro hnone
      rw [hrec] at hnone
      exact absurd hnone (by simp)
    · intro rec hrec2
      rw [hrec] at hrec2
      obtain rfl := Option.some.inj hrec2
      obtain ⟨e, c, heq, hcq, hez, hveq⟩ := candVar_fields _ v hcv
      have hidx : (recOf (0 + j) (results.get ⟨j, hj⟩) v).index = j := by
        simp [recOf]
      refine ⟨by simpa [recOf] using hj, ?_, by simpa [recOf] using hpos, ?_, ?_, ?_, ?_⟩
      · simpa [recOf] using hcv
      · have heq2 := heq
        simp only [List.get_eq_getElem] at heq2
        simp [recOf, heq2]
      · have hcq2 := hcq
        simp only [List.get_eq_getElem] at hcq2
        simp [recOf, hcq2]
      · intro k hk w hw
        simpa [recOf] using hub k (by simpa [recOf] using hk) w (by simpa [recOf] using hw)
      · intro k hk w hklt hw
        simpa [recOf] using hstrict k (by simpa [recOf] using hk) w
          (by simpa [recOf] using hklt) (by simpa [recOf] using hw)

/-- The statement used by the C3 counterexample: reconciliation failed
(is_valid is false) with expected 100 and calculated 50. -/
def invalidHVStatement : Statement :=
  ⟨none, none, [],
    ⟨false, [], some 50, some 100, some (-50),
      "Discrepancy detected in balance calculation"⟩, none, none⟩

/-- C3 counterexample: the statistics loop records the invalid statement
(variance fifty percent) although its verdict is not is_valid, while the
selection worded by the claim, which admits only is_valid statements,
records nothing. -/
theorem C3_counterexample_invalid_statement_recorded :
    hvGo 0 0 none [invalidHVStatement]
      = Except.ok (some ⟨0, 100, 50, 50⟩) ∧
    claimedHighestVariance [invalidHVStatement] = none ∧
    invalidHVStatement.validation.is_valid = false := by
  refine ⟨?_, by decide, rfl⟩
  have hcv : candVar invalidHVStatement = some 50 := by
    have habs : |(1 : ℚ) / 2| = 1 / 2 := abs_of_pos (by norm_num)
    simp only [candVar, invalidHVStatement]
    norm_num [habs]
  have hstep := hvStep_cand 0 0 none invalidHVStatement 50 hcv
  rw [if_pos (by norm_num : (0 : ℚ) < 50)] at hstep
  show (match hvStep 0 0 none invalidHVStatement with
    | Except.error u => Except.error u
    | Except.ok st => hvGo 1 st.1 st.2 []) = _
  rw [hstep]
  simp [hvGo, recOf, invalidHVStatement]

/-- Witness for the C3 amended theorem: on the concrete single-statement
batch the recorded variance is strictly positive. -/
theorem C3_highest_variance_selection_witness :
    0 < (⟨0, 100, 50, 50⟩ : HVRec).variance := by
  obtain ⟨hj, hcv, hpos, hrest⟩ :=
    (C3_highest_variance_selection [invalidHVStatement]
        (some ⟨0, 100, 50, 50⟩)
        C3_counterexample_invalid_statement_recorded.1).2
      ⟨0, 100, 50, 50⟩ rfl
  exact hpos

/-! ### Error containment (C4) -/

/-- The condition under which the statistics loop raises on a statement:
a present non-zero expected ending balance together with an absent
calculated ending balance. -/
def hvCrash (s : Statement) : Prop :=
  ∃ e, s.validation.expected_ending_balance = some e ∧ e ≠ 0 ∧
    s.validation.calculated_ending_balance = none

/-- A failing step of the highest-variance loop implies the crash
condition. -/
theorem hvStep_err (i : Nat) (mv : ℚ) (b : Option HVRec) (s : Statement)
    (u : Unit) (h : hvStep i mv b s = .error u) : hvCrash s := by
  simp only [hvStep] at h
  split at h
  · exact absurd h (by simp)
  · rename_i e heq
    split at h
    · exact absurd h (by simp)
    · rename_i hez
      split at h
      · rename_i hcq
        exact ⟨e, heq, hez, hcq⟩
      · split at h <;> exact absurd h (by simp)

/-- The crash condition makes the step of the highest-variance loop
fail. -/
theorem hvStep_crash (i : Nat) (mv : ℚ) (b : Option HVRec) (s : Statement)
    (hcr : hvCrash s) : hvStep i mv b s = .error () := by
  obtain ⟨e, heq, hez, hcq⟩ := hcr
  simp only [hvStep, heq, if_neg hez, hcq]

/-- The highest-variance loop succeeds on every list whose statements all
avoid the crash condition. -/
theorem hvGo_ok_of_not_crash (l : List Statement) :
    ∀ (i : Nat) (mv : ℚ) (b : Option HVRec),
      (∀ s ∈ l, ¬ hvCrash s) → ∃ hv, hvGo i mv b l = Except.ok hv := by
  induction l with
  | nil => exact fun i mv b _ => ⟨b, rfl⟩
  | cons x rest ih =>
    intro i mv b h
    cases hst : hvStep i mv b x with
    | error u =>
      exact absurd (hvStep_err i mv b x u hst)
        (h x (List.mem_cons_self x rest))
    | ok st =>
      obtain ⟨hv, hrec⟩ :=
        ih (i + 1) st.1 st.2 (fun t ht => h t (List.mem_cons_of_mem x ht))
      refine ⟨hv, ?_⟩
      simp only [hvGo]
      rw [hst]
      exact hrec

/-- A successful run of the highest-variance loop implies that no
statement of the list meets the crash condition. -/
theorem hvGo_not_crash_of_ok (l : List Statement) :
    ∀ (i : Nat) (mv : ℚ) (b : Option HVRec) (hv : Option HVRec),
      hvGo i mv b l = Except.ok hv → ∀ s ∈ l, ¬ hvCrash s := by
  induction l with
  | nil => intro i mv b hv _ s hs; exact absurd hs (List.not_mem_nil s)
  | cons x rest ih =>
    intro i mv b hv hok s hs
    simp only [hvGo] at hok
    cases hst : hvStep i mv b x with
    | error u => rw [hst] at hok; exact absurd hok (by simp)
    | ok st =>
      rw [hst] at hok
      rcases List.mem_cons.mp hs with rfl | hmem
      · intro hcr
        rw [hvStep_crash i mv b s hcr] at hst
        exact absurd hst (by simp)
      · exact ih (i + 1) st.1 st.2 hv hok s hmem

/-- The error statement of the heuristic parse never meets the crash
condition: its expected ending balance is absent. -/
theorem errStatementHeur_not_crash (e : String) :
    ¬ hvCrash (errStatementHeur e) := by
  rintro ⟨x, hx, -, -⟩
  simp [errStatementHeur] at hx

/-- C4: per-document failures are contained.  Whenever the heuristic or
AI per-document parse reports an error, the resulting statement has an
empty transaction list, a failed validation verdict and both balances
absent; and replacing any document of a successfully processed batch by a
document whose text extraction fails still lets the whole batch
succeed. -/
theorem C4_error_containment (year : Nat) :
    (∀ t, (parse_pdf year t).error.isSome = true →
        (parse_pdf year t).transactions = [] ∧
        (parse_pdf year t).validation.is_valid = false ∧
        (parse_pdf year t).starting_balance = none ∧
        (parse_pdf year t).ending_balance = none) ∧
    (∀ a, (ai_parse_pdf a).error.isSome = true →
        (ai_parse_pdf a).transactions = [] ∧
        (ai_parse_pdf a).validation.is_valid = false ∧
        (ai_parse_pdf a).starting_balance = none ∧
        (ai_parse_pdf a).ending_balance = none) ∧
    (∀ (docs : List (Except String String)) (i : Nat) (e : String)
        (res : List Statement × BatchStatistics),
      process_batch year docs = Except.ok res →
      ∃ res2, process_batch year (docs.set i (Except.error e))
        = Except.ok res2) := by
  refine ⟨?_, ?_, ?_⟩
  · intro t ht
    cases t with
    | error e => exact ⟨rfl, rfl, rfl, rfl⟩
    | ok text => simp [parse_pdf] at ht
  · intro a ha
    cases a with
    | error e => exact ⟨rfl, rfl, rfl, rfl⟩
    | ok d => simp [ai_parse_pdf] at ha
  · intro docs i e res hok
    simp only [process_batch] at hok
    obtain ⟨stats, hstats⟩ :
        ∃ stats, calculate_statistics (docs.map (parse_pdf year))
          = Except.ok stats := by
      cases hcs : calculate_statistics (docs.map (parse_pdf year)) with
      | error u => rw [hcs] at hok; exact absurd hok (by simp)
      | ok stats => exact ⟨stats, rfl⟩
    simp only [calculate_statistics] at hstats
    obtain ⟨hv, hg⟩ :
        ∃ hv, hvGo 0 0 none (docs.map (parse_pdf year)) = Except.ok hv := by
      cases hgo : hvGo 0 0 none (docs.map (parse_pdf year)) with
      | error u => rw [hgo] at hstats; exact absurd hstats (by simp)
      | ok hv => exact ⟨hv, rfl⟩
    have hnc : ∀ s ∈ docs.map (parse_pdf year), ¬ hvCrash s :=
      hvGo_not_crash_of_ok _ 0 0 none hv hg
    have hnc2 :
        ∀ s ∈ (docs.set i (Except.error e)).map (parse_pdf year),
          ¬ hvCrash s := by
      intro s hs
      obtain ⟨d, hd, rfl⟩ := List.mem_map.mp hs
      rcases List.mem_or_eq_of_mem_set hd with hdm | rfl
      · exact hnc _ (List.mem_map_of_mem _ hdm)
      · exact errStatementHeur_not_crash _
    obtain ⟨hv2, hg2⟩ := hvGo_ok_of_not_crash _ 0 0 none hnc2
    cases hfin : process_batch year (docs.set i (Except.error e)) with
    | ok r => exact ⟨r, rfl⟩
    | error u =>
      exfalso
      simp only [process_batch, calculate_statistics] at hfin
      rw [hg2] at hfin
      simp at hfin

/-- Witness for C4 at concrete inputs: a failed extraction document, a
failed AI call, and the replacement of the only document of a one-document
batch by a failing one. -/
theorem C4_error_containment_witness :
    (parse_pdf 2024 (Except.error "x")).transactions = [] ∧
    (parse_pdf 2024 (Except.error "x")).validation.is_valid = false ∧
    (ai_parse_pdf (Except.error "x")).transactions = [] ∧
    (ai_parse_pdf (Except.error "x")).validation.is_valid = false ∧
    ∃ res2, process_batch 2024 ([Except.error "a"].set 0 (Except.error "b"))
      = Except.ok res2 := by
  have h := C4_error_containment 2024
  have h0 : process_batch 2024 [Except.error "a"]
      = Except.ok ([parse_pdf 2024 (Except.error "a")],
          ⟨1, 0, 1, 0, 0, 0, none⟩) := rfl
  exact ⟨(h.1 (Except.error "x") rfl).1, (h.1 (Except.error "x") rfl).2.1,
    (h.2.1 (Except.error "x") rfl).1, (h.2.1 (Except.error "x") rfl).2.1,
    h.2.2 [Except.error "a"] 0 "b" _ h0⟩
